import Mathlib

/-!
# Verification of the sequelize-grant-generator usage-inference core

Shallow embedding of the parser core of `sequelize-grant-generator`
(`src/parser.ts` in its current revision, `src/helpers.ts`,
`src/types/parser.dto.ts`).  The embedding mirrors, definition by
definition, the functions of the `SequelizeParser` class that accumulate
per-entity CRUD usage flags in the `foundModels` record:

* the data model (`SequelizeParserModelOperations`, the found-models
  store, the caller-supplied registry of available models with their
  associations);
* the classifier tables (`SequelizeDefaultWriteMethodsRecord`,
  `SequelizeTypescriptGeneratedWriteMixins`);
* the store operations (`getOrCreateModelOperations`, flag updates);
* `processImportDeclarationNode`, `processModelWriteMethod`,
  `processModelTypescriptMixins`, `getThroughModelOperations`,
  `findModelFromNode`, `processCallExpression`, and the post-traversal
  pass `addHiddenManyToManyModels`.

JavaScript objects keyed by strings are modelled as association lists in
insertion order (lookup returns the first binding).  In-place mutation of
a record object obtained from `foundModels` is modelled as a keyed update
of the store: the TypeScript code always obtains those objects from
`this.foundModels[name]`, so object identity coincides with the name key.
A JavaScript `TypeError` thrown by dereferencing `undefined` is modelled
by `Option`: `none` is an abnormal (thrown) outcome.
-/

namespace SGG

/-- One CRUD usage record, from `SequelizeParserModelOperations` in
`src/types/parser.dto.ts` (the TypeScript type pins `isSelect` to the
literal type `true`; at runtime it is a boolean field, modelled as such). -/
structure SequelizeParserModelOperations where
  table : String
  isSelect : Bool
  isInsert : Bool
  isUpdate : Bool
  isDelete : Bool
deriving DecidableEq, Repr

/-- The `foundModels` record: entity name to usage record, in insertion
order. -/
abbrev Store := List (String × SequelizeParserModelOperations)

/-- A fresh select-only record, as every record-creation site of the
source builds it. -/
def freshRecord (table : String) : SequelizeParserModelOperations :=
  ⟨table, true, false, false, false⟩

/-- Name and table of a Sequelize model class, the part of a
`ModelStatic<Model>` reference that the parser reads (`model.name`,
`getSequelizeModelTableName(model)`). -/
structure EntityRef where
  name : String
  table : String
deriving DecidableEq, Repr

/-- The `options.through` value of a `BelongsToMany` association, input of
`getSequelizeModelNameFromThroughModel` in `src/helpers.ts`: a plain
string, a model class, or a `ThroughOptions` object whose `model` field is
a string or a model class (`objInvalid` stands for an object with a
missing or invalid `model` field). -/
inductive ThroughRef where
  | str (s : String)
  | mdl (r : EntityRef)
  | objStr (s : String)
  | objMdl (r : EntityRef)
  | objInvalid
deriving DecidableEq, Repr

/-- An entry of `model.associations`: whether it is a `BelongsToMany`
association, its target model, and (for `BelongsToMany`) the
`options.through` value.  `through = none` models an absent field. -/
structure SeqAssociation where
  isBelongsToMany : Bool
  target : EntityRef
  through : Option ThroughRef
deriving DecidableEq, Repr

/-- A registered model: name, table name and its `associations` record in
insertion order. -/
structure SeqModel where
  name : String
  table : String
  associations : List (String × SeqAssociation)
deriving DecidableEq, Repr

/-- The caller-supplied `availableModels` record (`sequelize.models`):
model name to model class, in insertion order.  The embedding stores only
genuine models, so the runtime `isSequelizeModel` guard of the source is
always satisfied. -/
abbrev Registry := List (String × SeqModel)

/-- First-binding lookup in a JavaScript-object-as-association-list. -/
def assocLookup {β : Type} : List (String × β) → String → Option β
  | [], _ => none
  | (k, v) :: rest, n => if k = n then some v else assocLookup rest n

/-- `SequelizeWriteOperationType` from `src/types/parser.dto.ts`. -/
inductive SequelizeWriteOperationType where
  | INSERT
  | UPDATE
  | DELETE
deriving DecidableEq, Repr

/-- `SequelizeDefaultWriteMethodsRecord` from `src/helpers.ts`, in source
order. -/
def SequelizeDefaultWriteMethodsRecord :
    List (String × List SequelizeWriteOperationType) :=
  [("build", [.INSERT]),
   ("bulkCreate", [.INSERT]),
   ("create", [.INSERT]),
   ("findCreateFind", [.INSERT]),
   ("findOrBuild", [.INSERT]),
   ("findOrCreate", [.INSERT]),
   ("bulkUpdate", [.UPDATE]),
   ("decrement", [.UPDATE]),
   ("increment", [.UPDATE]),
   ("restore", [.UPDATE]),
   ("save", [.UPDATE]),
   ("set", [.UPDATE]),
   ("update", [.UPDATE]),
   ("upsert", [.INSERT, .UPDATE]),
   ("destroy", [.DELETE])]

/-- `SequelizeTypescriptGeneratedWriteMixins` from `src/helpers.ts`. -/
def SequelizeTypescriptGeneratedWriteMixins : List String :=
  ["$add", "$create", "$set", "$remove"]

/-- `isSequelizeTypescriptGeneratedWriteMethod` from `src/helpers.ts`. -/
def isSequelizeTypescriptGeneratedWriteMethod (method : String) : Bool :=
  SequelizeTypescriptGeneratedWriteMixins.contains method

/-- `isSequelizeModelWriteMethod` from `src/helpers.ts`: a key of the
default-write-methods record, or a mixin name. -/
def isSequelizeModelWriteMethod (method : String) : Bool :=
  (SequelizeDefaultWriteMethodsRecord.map Prod.fst).contains method ||
    isSequelizeTypescriptGeneratedWriteMethod method

/-- `getSequelizeModelNameFromThroughModel` from `src/helpers.ts`.  A
`ThroughOptions` object with a falsy `model` field (absent, invalid, or
the empty string) hits the error path and yields `undefined`. -/
def getSequelizeModelNameFromThroughModel : ThroughRef → Option String
  | .str s => some s
  | .mdl r => some r.name
  | .objStr s => if s = "" then none else some s
  | .objMdl r => some r.name
  | .objInvalid => none

/-- JavaScript truthiness of an `options.through` value (`!options.through`
in `getThroughModelOperations`): only the empty string is falsy among the
possible values. -/
def throughRefTruthy : ThroughRef → Bool
  | .str s => s ≠ ""
  | _ => true

/-- The resolution part of `getThroughModelOperations` in `src/parser.ts`:
from a `BelongsToMany` association's `options.through` to the registered
through model, `none` on every diagnostic path (not `BelongsToMany`, falsy
`through`, unresolvable name — including the falsy-name check
`if (!throughModelName) return undefined` — or model not registered). -/
def resolveThroughModel (reg : Registry) (a : SeqAssociation) : Option SeqModel :=
  if a.isBelongsToMany = false then none
  else
    match a.through with
    | none => none
    | some thr =>
      if throughRefTruthy thr = false then none
      else
        match getSequelizeModelNameFromThroughModel thr with
        | none => none
        | some n => if n = "" then none else assocLookup reg n

/-- `getOrCreateModelOperations` from `src/parser.ts`: return the store
unchanged when a record exists for the model name, otherwise append a
fresh select-only record. -/
def getOrCreateModelOperations (name table : String) (s : Store) : Store :=
  if (assocLookup s name).isSome then s
  else s ++ [(name, ⟨table, true, false, false, false⟩)]

/-- In-place `modelOperations.isInsert = true` on the record object aliased
at `name` in `foundModels`. -/
def setInsertFlag (name : String) (s : Store) : Store :=
  s.map (fun p => if p.1 = name then (p.1, { p.2 with isInsert := true }) else p)

/-- In-place `modelOperations.isUpdate = true`. -/
def setUpdateFlag (name : String) (s : Store) : Store :=
  s.map (fun p => if p.1 = name then (p.1, { p.2 with isUpdate := true }) else p)

/-- In-place `modelOperations.isDelete = true`. -/
def setDeleteFlag (name : String) (s : Store) : Store :=
  s.map (fun p => if p.1 = name then (p.1, { p.2 with isDelete := true }) else p)

/-- `getThroughModelOperations` from `src/parser.ts`: resolve the through
model of a `BelongsToMany` association and get-or-create its record
(returning which model was resolved together with the updated store);
`none` with the store untouched on every diagnostic path. -/
def getThroughModelOperations (reg : Registry) (a : SeqAssociation) (s : Store) :
    Option SeqModel × Store :=
  match resolveThroughModel reg a with
  | none => (none, s)
  | some m => (some m, getOrCreateModelOperations m.name m.table s)

/-- `processModelWriteMethod` from `src/parser.ts`: mixin verbs are handled
elsewhere and leave the store untouched here; unknown method names are
logged and contribute nothing; otherwise get-or-create the model's record
and set one flag per listed operation. -/
def processModelWriteMethod (model : SeqModel) (method : String) (s : Store) : Store :=
  if isSequelizeTypescriptGeneratedWriteMethod method = true then s
  else
    match assocLookup SequelizeDefaultWriteMethodsRecord method with
    | none => s
    | some operations =>
      let s1 := getOrCreateModelOperations model.name model.table s
      operations.foldl (fun st op =>
        match op with
        | .INSERT => setInsertFlag model.name st
        | .UPDATE => setUpdateFlag model.name st
        | .DELETE => setDeleteFlag model.name st) s1

/-!
## Syntax-tree and type-checker model

A minimal model of the TypeScript AST nodes the parser inspects.  Node
shapes it never needs (call callees that are themselves calls, template
expressions, …) are omitted; they would be rejected exactly like the
modelled token leaves, by the first-token or child-count guards.
-/

/-- Punctuation tokens that occur as children of the modelled node
shapes. -/
inductive TokKind where
  | dot
  | questionDot
  | openBracket
  | closeBracket
deriving DecidableEq, Repr

/-- AST expression nodes: identifiers, string literals, punctuation
tokens, property access `e.n` / `e?.n` (the Bool marks optional
chaining), and element (computed) access `e[a]`. -/
inductive TSNode where
  | ident (text : String)
  | strLit (text : String)
  | tok (k : TokKind)
  | propertyAccess (expr : TSNode) (optionalChain : Bool) (nm : TSNode)
  | elementAccess (expr : TSNode) (argExpr : TSNode)
deriving DecidableEq, Repr

/-- `ts.isIdentifier`. -/
def isIdentifierNode : TSNode → Bool
  | .ident _ => true
  | _ => false

/-- Whether a node is a single token (identifiers and literals are token
kinds in the TypeScript AST, composite expressions are not). -/
def isTokenNode : TSNode → Bool
  | .propertyAccess _ _ _ => false
  | .elementAccess _ _ => false
  | _ => true

/-- `node.getChildren()`: all children including punctuation tokens, in
source order.  Token leaves have no children. -/
def getChildren : TSNode → List TSNode
  | .propertyAccess e opt n =>
      [e, .tok (if opt then .questionDot else .dot), n]
  | .elementAccess e a => [e, .tok .openBracket, a, .tok .closeBracket]
  | _ => []

/-- `node.getText()`: the source text of a node. -/
def getText : TSNode → String
  | .ident t => t
  | .strLit t => "\"" ++ t ++ "\""
  | .tok .dot => "."
  | .tok .questionDot => "?."
  | .tok .openBracket => "["
  | .tok .closeBracket => "]"
  | .propertyAccess e opt n =>
      getText e ++ (if opt then "?." else ".") ++ getText n
  | .elementAccess e a => getText e ++ "[" ++ getText a ++ "]"

/-- `node.getFirstToken()`: the first descendant token; `undefined`
(`none`) on a token leaf, which has no children. -/
def getFirstToken? : TSNode → Option TSNode
  | .propertyAccess e _ _ =>
      if isTokenNode e = true then some e else getFirstToken? e
  | .elementAccess e _ =>
      if isTokenNode e = true then some e else getFirstToken? e
  | _ => none

/-- The base expression of one heritage type reference
(`t.expression`): a call expression such as `OmitType(Model)` (argument
texts), a plain identifier, or anything else. -/
inductive HeritageExpr where
  | callExpr (argTexts : List String)
  | identExpr (text : String)
  | otherExpr
deriving DecidableEq, Repr

/-- One type reference of a heritage clause: optional generic type
arguments (their source texts) and the base expression. -/
structure HeritageTypeRef where
  typeArguments : Option (List String)
  expr : HeritageExpr
deriving DecidableEq, Repr

/-- A declaration of a symbol, as `findModelFromNode` distinguishes them:
interface/class declarations (with optional heritage clauses, each a list
of type references), mapped type nodes, and anything else. -/
inductive TSDecl where
  | interfaceOrClassDecl (heritageClauses : Option (List (List HeritageTypeRef)))
  | mappedTypeDecl
  | otherDecl
deriving DecidableEq, Repr

/-- A type-checker symbol: its name and its declarations. -/
structure TSSymbol where
  symName : String
  declarations : Option (List TSDecl)
deriving DecidableEq, Repr

/-- A static type as `findModelFromNode` uses it: its symbol, if any. -/
structure TSType where
  symbol : Option TSSymbol
deriving DecidableEq, Repr

/-- The type-checker oracle: `checker.getTypeAtLocation`. -/
abbrev TSChecker := TSNode → TSType

/-- The heritage-type-reference scan inside `findModelFromNode`: first a
registered name among the generic type arguments (skipping falsy texts),
then the base expression — call-expression arguments, or a plain
registered identifier.  First success wins. -/
def resolveHeritageTypeRef (reg : Registry) (t : HeritageTypeRef) : Option SeqModel :=
  let fromArgs :=
    match t.typeArguments with
    | none => none
    | some texts =>
        texts.findSome? (fun a => if a = "" then none else assocLookup reg a)
  match fromArgs with
  | some m => some m
  | none =>
    match t.expr with
    | .callExpr argTexts => argTexts.findSome? (assocLookup reg)
    | .identExpr x => assocLookup reg x
    | .otherExpr => none

/-- The per-declaration scan inside `findModelFromNode`: interface and
class declarations are searched through their heritage clauses; mapped
types and other declarations only warn. -/
def resolveDeclaration (reg : Registry) : TSDecl → Option SeqModel
  | .interfaceOrClassDecl hcs =>
      (hcs.getD []).findSome? (fun hc => hc.findSome? (resolveHeritageTypeRef reg))
  | .mappedTypeDecl => none
  | .otherDecl => none

/-- `findModelFromNode` from `src/parser.ts`: (1) the node's literal text
as a registered name; (2) the name of the symbol of its static type
(JavaScript indexes with the string `"undefined"` when there is no
symbol); (3) heritage unwrapping over the symbol's declarations; else a
diagnostic and `undefined`. -/
def findModelFromNode (reg : Registry) (checker : TSChecker) (node : TSNode) :
    Option SeqModel :=
  match assocLookup reg (getText node) with
  | some m => some m
  | none =>
    if isIdentifierNode node = false then none
    else
      let typeOfVariable := checker node
      match assocLookup reg
          (((typeOfVariable.symbol).map TSSymbol.symName).getD "undefined") with
      | some m => some m
      | none =>
        ((typeOfVariable.symbol.bind TSSymbol.declarations).getD []).findSome?
          (resolveDeclaration reg)

/-- The `switch (method)` body of `processModelTypescriptMixins`, applied
once the target record exists and the through model (if any) has been
resolved and get-or-created: the per-verb flag assignments of the
source. -/
def processMixinVerb (method : String) (targetName : String)
    (thrOpt : Option SeqModel) (s2 : Store) : Store :=
  if method = "$add" then
    match thrOpt with
    | some thr => setInsertFlag thr.name s2
    | none => setUpdateFlag targetName s2
  else if method = "$create" then
    let s3 := setInsertFlag targetName s2
    match thrOpt with
    | some thr => setInsertFlag thr.name s3
    | none => s3
  else if method = "$set" then
    match thrOpt with
    | some thr =>
        setDeleteFlag thr.name (setUpdateFlag thr.name (setInsertFlag thr.name s2))
    | none => setUpdateFlag targetName s2
  else if method = "$remove" then
    match thrOpt with
    | some thr => setDeleteFlag thr.name s2
    | none => setUpdateFlag targetName s2
  else s2

/-- `ts.isStringLiteral`. -/
def isStringLiteralNode : TSNode → Bool
  | .strLit _ => true
  | _ => false

/-- `associationNameExp.text` (the literal's contents, without quotes);
only read after the string-literal guard. -/
def stringLiteralText : TSNode → String
  | .strLit t => t
  | _ => ""

/-- Stage of `processModelTypescriptMixins` after the association has been
looked up and the target model confirmed registered: get-or-create the
target record, get-or-create the through record when it resolves, apply
the verb's flags. -/
def processMixinResolved (reg : Registry) (method : String) (assoc : SeqAssociation)
    (s : Store) : Store :=
  let s1 := getOrCreateModelOperations assoc.target.name assoc.target.table s
  match getThroughModelOperations reg assoc s1 with
  | (thrOpt, s2) => processMixinVerb method assoc.target.name thrOpt s2

/-- Stage of `processModelTypescriptMixins` after the association name has
been read from the string literal: look up the association on the source
model, then check the target model is registered; each failure is a
diagnostic leaving the store untouched. -/
def processMixinNamed (reg : Registry) (sourceModel : SeqModel) (method : String)
    (assocName : String) (s : Store) : Store :=
  match assocLookup sourceModel.associations assocName with
  | none => s
  | some assoc =>
    match assocLookup reg assoc.target.name with
    | none => s
    | some _ => processMixinResolved reg method assoc s

/-- `processModelTypescriptMixins` from `src/parser.ts`: handle
`entity.$add/$create/$set/$remove(associationName, values, …)`.  Every
diagnostic path (wrong verb, fewer than two arguments, non-string-literal
association name, unknown association, unregistered target) leaves the
store untouched; on success the effect stages run. -/
def processModelTypescriptMixins (reg : Registry) (sourceModel : SeqModel)
    (method : String) (args : List TSNode) (s : Store) : Store :=
  if isSequelizeTypescriptGeneratedWriteMethod method = false then s
  else if args.length < 2 then s
  else
    match args[0]? with
    | none => s
    | some associationNameExp =>
      if isStringLiteralNode associationNameExp = false then s
      else
        processMixinNamed reg sourceModel method
          (stringLiteralText associationNameExp) s

/-- A call expression node: callee expression and argument list. -/
structure CallExpressionNode where
  expression : TSNode
  arguments : List TSNode
deriving DecidableEq, Repr

/-- Stage of `processCallExpression` after the first token and the method
name have passed every structural check: resolve the entity, then run the
direct classifier followed by the mixin handler. -/
def processResolvedCall (reg : Registry) (checker : TSChecker) (firstNode : TSNode)
    (method : String) (args : List TSNode) (s : Store) : Store :=
  match findModelFromNode reg checker firstNode with
  | none => s
  | some model =>
    processModelTypescriptMixins reg model method args
      (processModelWriteMethod model method s)

/-- Stage of `processCallExpression` after the first-token guard: the
three-children structural check and the identifier/write-method check on
the third child. -/
def processCallWithFirstToken (reg : Registry) (checker : TSChecker)
    (node : CallExpressionNode) (firstNode : TSNode) (s : Store) : Store :=
  if (getChildren node.expression).length < 3 then s
  else
    match (getChildren node.expression)[2]? with
    | none => s
    | some thirdNode =>
      let method := getText thirdNode
      if method = "" then s
      else if isIdentifierNode thirdNode = false then s
      else if isSequelizeModelWriteMethod method = false then s
      else processResolvedCall reg checker firstNode method node.arguments s

/-- `processCallExpression` from `src/parser.ts`: the first-token guard,
the three-children structural check, the identifier/write-method check on
the third child, entity resolution of the first token, then the direct
write-method classifier followed by the mixin handler. -/
def processCallExpression (reg : Registry) (checker : TSChecker)
    (node : CallExpressionNode) (s : Store) : Store :=
  match getFirstToken? node.expression with
  | none => s
  | some firstNode => processCallWithFirstToken reg checker node firstNode s

/-- One named import specifier (`propertyName` is the original exported
name when the import is aliased). -/
structure ImportSpecifier where
  importedName : String
  propertyName : Option String
deriving DecidableEq, Repr

/-- An import declaration as `processImportDeclarationNode` reads it: the
module specifier when it is a string literal, and the named bindings
(empty when the import has none). -/
structure ImportDeclarationNode where
  moduleSpecifierStringLiteral : Option String
  namedImports : List ImportSpecifier
deriving DecidableEq, Repr

/-- The module-filter guard of `processImportDeclarationNode`: skip
the declaration when a specific originating module is required, the
module specifier is a string literal, and the two differ. -/
def importModuleFilterSkips (onlyFromSpecificModuleImport : Option String)
    (moduleSpecifierStringLiteral : Option String) : Bool :=
  match onlyFromSpecificModuleImport, moduleSpecifierStringLiteral with
  | some onlyFrom, some fromText => fromText != onlyFrom
  | _, _ => false

/-- The per-specifier body of `processImportDeclarationNode`: resolve
the local (or original) name against the registry and register a fresh
select-only record unless one exists. -/
def processImportSpecifier (reg : Registry) (st : Store) (spec : ImportSpecifier) :
    Store :=
  match assocLookup reg (spec.propertyName.getD spec.importedName) with
  | none => st
  | some model =>
    if (assocLookup st model.name).isSome then st
    else st ++ [(model.name, freshRecord model.table)]

/-- `processImportDeclarationNode` from `src/parser.ts`: optionally filter
by originating module, then register each named import that resolves to a
model with a fresh select-only record (skipping duplicates). -/
def processImportDeclarationNode (reg : Registry)
    (onlyFromSpecificModuleImport : Option String) (node : ImportDeclarationNode)
    (s : Store) : Store :=
  if importModuleFilterSkips onlyFromSpecificModuleImport
      node.moduleSpecifierStringLiteral = true then s
  else node.namedImports.foldl (processImportSpecifier reg) s

/-- Stage of the inner `forEach` of `addHiddenManyToManyModels` once the
target record has been found: get-or-create the through record and copy
the target's set flags into it; when the through model does not resolve,
the flag-copying statements dereference `undefined` and throw as soon as
one target flag is set (`none`). -/
def addHiddenThroughStep (reg : Registry) (a : SeqAssociation)
    (targetOps : SequelizeParserModelOperations) (s : Store) : Option Store :=
  match getThroughModelOperations reg a s with
  | (none, s1) =>
    if targetOps.isInsert || targetOps.isUpdate || targetOps.isDelete then none
    else some s1
  | (some thr, s1) =>
    let s2 := if targetOps.isInsert then setInsertFlag thr.name s1 else s1
    let s3 := if targetOps.isUpdate then setUpdateFlag thr.name s2 else s2
    some (if targetOps.isDelete then setDeleteFlag thr.name s3 else s3)

/-- The body of the inner `forEach` of `addHiddenManyToManyModels`, for
one association of one found model: non-`BelongsToMany` associations and
associations whose target has no record are skipped, the rest run the
through stage. -/
def addHiddenAssociationStep (reg : Registry) (a : SeqAssociation) (s : Store) :
    Option Store :=
  if a.isBelongsToMany = false then some s
  else
    match assocLookup s a.target.name with
    | none => some s
    | some targetOps => addHiddenThroughStep reg a targetOps s

/-- The body of the outer `forEach` of `addHiddenManyToManyModels`, for
one found-model key: `availableModels[modelName]` is dereferenced without
a check (`model.associations` throws a `TypeError` when the key is not
registered, modelled as `none`), then every association is processed. -/
def addHiddenModelStep (reg : Registry) (s : Store) (modelName : String) :
    Option Store :=
  match assocLookup reg modelName with
  | none => none
  | some model =>
      model.associations.foldlM (fun st p => addHiddenAssociationStep reg p.2 st) s

/-- `addHiddenManyToManyModels` from `src/parser.ts`: iterate over a
snapshot of the found-model keys (`Object.keys` is evaluated once) and
process each model's associations. -/
def addHiddenManyToManyModels (reg : Registry) (s : Store) : Option Store :=
  (s.map Prod.fst).foldlM (addHiddenModelStep reg) s

/-- Keyed update of a store (the common shape of the three flag
setters). -/
def mapUpdate (f : SequelizeParserModelOperations → SequelizeParserModelOperations)
    (name : String) (s : Store) : Store :=
  s.map (fun p => if p.1 = name then (p.1, f p.2) else p)

/-- The three CRUD write flags. -/
inductive WriteFlag where
  | insertFlag
  | updateFlag
  | deleteFlag
deriving DecidableEq, Repr

/-- Read one write flag of a record. -/
def readFlag (r : SequelizeParserModelOperations) : WriteFlag → Bool
  | .insertFlag => r.isInsert
  | .updateFlag => r.isUpdate
  | .deleteFlag => r.isDelete

/-- Read one write flag of an entity's record in the store; `false` when
the entity has no record. -/
def flagOf (s : Store) (n : String) (f : WriteFlag) : Bool :=
  match assocLookup s n with
  | none => false
  | some r => readFlag r f

/-!
## The additive-flags invariant kit
-/

/-- Pointwise record ordering: every flag only goes from `false` to
`true`. -/
def OpsLE (a b : SequelizeParserModelOperations) : Prop :=
  (a.isSelect = true → b.isSelect = true) ∧ (a.isInsert = true → b.isInsert = true) ∧
    (a.isUpdate = true → b.isUpdate = true) ∧ (a.isDelete = true → b.isDelete = true)

/-- Store evolution ordering: records are never deleted and flags never
regress. -/
def StoreLE (s t : Store) : Prop :=
  ∀ n r, assocLookup s n = some r →
    ∃ r', assocLookup t n = some r' ∧ OpsLE r r'

/-- Every record that exists carries `select = true`. -/
def AllSelect (s : Store) : Prop := ∀ p ∈ s, p.2.isSelect = true

/-- Invariant-preservation predicate for a total store operation. -/
def PreservesInv (g : Store → Store) : Prop :=
  ∀ s, (AllSelect s → AllSelect (g s)) ∧ StoreLE s (g s)

/-- The invariant-evolution relation between two snapshots of the
store. -/
def InvStep (s t : Store) : Prop := (AllSelect s → AllSelect t) ∧ StoreLE s t

/-!
## Characterization of the mixin-handler effect
-/

/-- The write-flag delta table of the specification for the four mixin
verbs (spec §4.4).  This definition follows the words of the spec's effect
table, to be compared with the behaviour of the source-derived handler:
`$add`: `through.insert` when a through entity is resolved, else
`target.update`; `$create`: `target.insert`, plus `through.insert` when
resolved; `$set`: all three through flags when resolved, else
`target.update`; `$remove`: `through.delete` when resolved, else
`target.update`. -/
def specMixinDelta (verb : String) (targetName : String) (throughName : Option String)
    (n : String) (f : WriteFlag) : Bool :=
  match throughName with
  | some j =>
    if verb = "$add" then (n == j) && (f == WriteFlag.insertFlag)
    else if verb = "$create" then
      ((n == targetName) && (f == WriteFlag.insertFlag)) ||
        ((n == j) && (f == WriteFlag.insertFlag))
    else if verb = "$set" then (n == j)
    else if verb = "$remove" then (n == j) && (f == WriteFlag.deleteFlag)
    else false
  | none =>
    if verb = "$add" then (n == targetName) && (f == WriteFlag.updateFlag)
    else if verb = "$create" then (n == targetName) && (f == WriteFlag.insertFlag)
    else if verb = "$set" then (n == targetName) && (f == WriteFlag.updateFlag)
    else if verb = "$remove" then (n == targetName) && (f == WriteFlag.updateFlag)
    else false

/-- The store on which the mixin verb's flag assignments run: the target
record get-or-created, then the through record get-or-created when the
through model resolves. -/
def mixinBaseStore (reg : Registry) (assoc : SeqAssociation) (s : Store) : Store :=
  let s1 := getOrCreateModelOperations assoc.target.name assoc.target.table s
  match resolveThroughModel reg assoc with
  | none => s1
  | some m => getOrCreateModelOperations m.name m.table s1

/-!
## Demo schemas used by witnesses and counterexamples
-/

/-- Demo schema: `User` many-to-many `Role` through `UserRole`. -/
def demoUserRole : SeqModel := ⟨"UserRole", "user_roles", []⟩

/-- Demo target model `Role`. -/
def demoRole : SeqModel := ⟨"Role", "roles", []⟩

/-- The `roles` association of `User`: `BelongsToMany` targeting `Role`
through `"UserRole"`. -/
def demoRolesAssoc : SeqAssociation := ⟨true, ⟨"Role", "roles"⟩, some (.str "UserRole")⟩

/-- Demo source model `User`. -/
def demoUser : SeqModel := ⟨"User", "users", [("roles", demoRolesAssoc)]⟩

/-- Demo registry holding the three models of the schema. -/
def demoRegistry : Registry :=
  [("User", demoUser), ("Role", demoRole), ("UserRole", demoUserRole)]

/-- A type-checker oracle typing the identifier `user` as an instance of
`User` and everything else with no symbol. -/
def demoChecker : TSChecker :=
  fun n => if n = TSNode.ident "user" then ⟨some ⟨"User", none⟩⟩ else ⟨none⟩

/-- An association whose target `Ghost` is not registered. -/
def ghostAssociation : SeqAssociation := ⟨false, ⟨"Ghost", "ghosts"⟩, none⟩

/-- A registered model owning the `pets` association to the unregistered
`Ghost`. -/
def ghostOwner : SeqModel := ⟨"User", "users", [("pets", ghostAssociation)]⟩

/-- Registry for the unregistered-target scenario. -/
def ghostRegistry : Registry := [("User", ghostOwner)]

/-- A type-checker oracle with no symbol information. -/
def nullChecker : TSChecker := fun _ => ⟨none⟩

/-- The record at `n` exists and carries `select = true`. -/
def SelectAt (s : Store) (n : String) : Prop :=
  ∃ r, assocLookup s n = some r ∧ r.isSelect = true

/-- A select-only demo store holding `User`. -/
def demoStoreUser : Store := [("User", freshRecord "users")]

/-- Registry for the unresolvable-join scenario: `A` belongs-to-many `B`
through `"J"`, but no model `J` is registered. -/
def brokenAssociation : SeqAssociation := ⟨true, ⟨"B", "tb"⟩, some (.str "J")⟩

/-- Model `A` owning the association with the unresolvable join. -/
def brokenA : SeqModel := ⟨"A", "ta", [("things", brokenAssociation)]⟩

/-- Model `B`, the association's target. -/
def brokenB : SeqModel := ⟨"B", "tb", []⟩

/-- The registry missing the join model `J`. -/
def brokenRegistry : Registry := [("A", brokenA), ("B", brokenB)]

/-- A store in which the target `B` has `insert = true` (e.g. from a
`B.create()` call). -/
def brokenStore : Store :=
  [("A", freshRecord "ta"), ("B", ⟨"tb", true, true, false, false⟩)]

/-!
## Claim C7: counterexample schema and idempotence machinery
-/

/-- `A` belongs-to-many `B` through `"J"`. -/
def chainAssocAB : SeqAssociation := ⟨true, ⟨"B", "tb"⟩, some (.str "J")⟩

/-- The join model `J` itself belongs-to-many `B` through `"K"`. -/
def chainAssocJB : SeqAssociation := ⟨true, ⟨"B", "tb"⟩, some (.str "K")⟩

/-- Model `A`. -/
def chainA : SeqModel := ⟨"A", "ta", [("bs", chainAssocAB)]⟩

/-- Model `B`. -/
def chainB : SeqModel := ⟨"B", "tb", []⟩

/-- The chained join model `J`. -/
def chainJ : SeqModel := ⟨"J", "tj", [("x", chainAssocJB)]⟩

/-- The second-level join model `K`. -/
def chainK : SeqModel := ⟨"K", "tk", []⟩

/-- A registry in which a join model has a many-to-many association of its
own. -/
def chainRegistry : Registry :=
  [("A", chainA), ("B", chainB), ("J", chainJ), ("K", chainK)]

/-- A store holding `A` and `B` only. -/
def chainStore : Store := [("A", freshRecord "ta"), ("B", freshRecord "tb")]

/-- The registry is coherent: every binding maps a key to a model carrying
that key as its name (as `sequelize.models` does). -/
def RegistryCoherent (reg : Registry) : Prop := ∀ p ∈ reg, p.2.name = p.1

/-- The model has no `BelongsToMany` associations. -/
def NoBtmAssociations (m : SeqModel) : Prop :=
  ∀ q ∈ m.associations, q.2.isBelongsToMany = false

/-- Join models are separated from the rest of the schema: every join
model resolvable from a registry association has no many-to-many
associations of its own and is not the target of any registry
`BelongsToMany` association. -/
def JoinSeparated (reg : Registry) : Prop :=
  ∀ p ∈ reg, ∀ q ∈ p.2.associations, q.2.isBelongsToMany = true →
    ∀ j, resolveThroughModel reg q.2 = some j →
      NoBtmAssociations j ∧
        ∀ p' ∈ reg, ∀ q' ∈ p'.2.associations, q'.2.isBelongsToMany = true →
          q'.2.target.name ≠ j.name

/-- `n` is not the name of any join model resolvable from the registry. -/
def NotJoinName (reg : Registry) (n : String) : Prop :=
  ∀ p ∈ reg, ∀ q ∈ p.2.associations,
    ∀ j, resolveThroughModel reg q.2 = some j → j.name ≠ n

/-- A store over the demo schema in which `Role` carries `insert`. -/
def demoStoreUR : Store :=
  [("User", freshRecord "users"), ("Role", ⟨"roles", true, true, false, false⟩)]

/-- The demo store after one completion pass: `UserRole` created with
`insert` inherited from `Role`. -/
def demoStoreURJ : Store :=
  [("User", freshRecord "users"), ("Role", ⟨"roles", true, true, false, false⟩),
   ("UserRole", ⟨"user_roles", true, true, false, false⟩)]

/-!
## Lookup and flag lemmas
-/

theorem assocLookup_cons {β : Type} (k : String) (v : β) (rest : List (String × β))
    (n : String) :
    assocLookup ((k, v) :: rest) n = if k = n then some v else assocLookup rest n := rfl

theorem assocLookup_mem {β : Type} {l : List (String × β)} {n : String} {v : β}
    (h : assocLookup l n = some v) : (n, v) ∈ l := by
  induction l with
  | nil => simp [assocLookup] at h
  | cons p rest ih =>
    obtain ⟨k, w⟩ := p
    rw [assocLookup_cons] at h
    by_cases hk : k = n
    · subst hk
      rw [if_pos rfl] at h
      cases h
      exact List.mem_cons_self _ _
    · rw [if_neg hk] at h
      exact List.mem_cons_of_mem _ (ih h)

theorem assocLookup_none_iff {β : Type} (l : List (String × β)) (n : String) :
    assocLookup l n = none ↔ n ∉ l.map Prod.fst := by
  induction l with
  | nil => simp [assocLookup]
  | cons p rest ih =>
    obtain ⟨k, w⟩ := p
    rw [assocLookup_cons]
    by_cases hk : k = n
    · subst hk
      simp
    · simp [hk, ih, Ne.symm hk]

theorem assocLookup_isSome_iff {β : Type} (l : List (String × β)) (n : String) :
    (assocLookup l n).isSome = true ↔ n ∈ l.map Prod.fst := by
  rcases h : assocLookup l n with _ | v
  · rw [assocLookup_none_iff] at h
    simp [h]
  · have hmem : n ∈ l.map Prod.fst :=
      List.mem_map.mpr ⟨(n, v), assocLookup_mem h, rfl⟩
    simp [hmem]

theorem assocLookup_eq_of_mem_nodup {β : Type} {l : List (String × β)} {n : String}
    {v : β} (hnd : (l.map Prod.fst).Nodup) (hmem : (n, v) ∈ l) :
    assocLookup l n = some v := by
  induction l with
  | nil => simp at hmem
  | cons p rest ih =>
    obtain ⟨k, w⟩ := p
    simp only [List.map_cons, List.nodup_cons] at hnd
    rcases List.mem_cons.mp hmem with hp | hp
    · cases hp
      simp [assocLookup_cons]
    · have hk : k ≠ n := by
        intro he
        subst he
        exact hnd.1 (List.mem_map.mpr ⟨(k, v), hp, rfl⟩)
      rw [assocLookup_cons, if_neg hk]
      exact ih hnd.2 hp

theorem assocLookup_append_single {β : Type} (l : List (String × β)) (k n : String)
    (v : β) :
    assocLookup (l ++ [(k, v)]) n =
      match assocLookup l n with
      | some r => some r
      | none => if k = n then some v else none := by
  induction l with
  | nil => simp [assocLookup]
  | cons p rest ih =>
    obtain ⟨k', w⟩ := p
    rw [List.cons_append, assocLookup_cons, assocLookup_cons]
    by_cases hk : k' = n
    · simp [hk]
    · simp only [if_neg hk]
      exact ih

theorem setInsertFlag_eq_mapUpdate (name : String) (s : Store) :
    setInsertFlag name s = mapUpdate (fun r => { r with isInsert := true }) name s := rfl

theorem setUpdateFlag_eq_mapUpdate (name : String) (s : Store) :
    setUpdateFlag name s = mapUpdate (fun r => { r with isUpdate := true }) name s := rfl

theorem setDeleteFlag_eq_mapUpdate (name : String) (s : Store) :
    setDeleteFlag name s = mapUpdate (fun r => { r with isDelete := true }) name s := rfl

theorem mapUpdate_cons (f : SequelizeParserModelOperations → SequelizeParserModelOperations)
    (m k : String) (v : SequelizeParserModelOperations) (rest : Store) :
    mapUpdate f m ((k, v) :: rest) =
      (if k = m then (k, f v) else (k, v)) :: mapUpdate f m rest := by
  simp [mapUpdate]

theorem assocLookup_mapUpdate (f : SequelizeParserModelOperations → SequelizeParserModelOperations)
    (m : String) (s : Store) (n : String) :
    assocLookup (mapUpdate f m s) n =
      if m = n then (assocLookup s n).map f else assocLookup s n := by
  induction s with
  | nil => simp [mapUpdate, assocLookup]
  | cons p rest ih =>
    obtain ⟨k, v⟩ := p
    rw [mapUpdate_cons]
    by_cases hm : k = m
    · subst hm
      by_cases hk : k = n
      · subst hk
        simp [assocLookup_cons]
      · simp [assocLookup_cons, hk, ih]
    · by_cases hk : k = n
      · subst hk
        simp [assocLookup_cons, hm, Ne.symm hm]
      · simp [assocLookup_cons, hm, hk, ih]

theorem keys_mapUpdate (f : SequelizeParserModelOperations → SequelizeParserModelOperations)
    (m : String) (s : Store) : (mapUpdate f m s).map Prod.fst = s.map Prod.fst := by
  induction s with
  | nil => rfl
  | cons p rest ih =>
    obtain ⟨k, v⟩ := p
    rw [mapUpdate_cons]
    by_cases hm : k = m
    · simp [hm, ih]
    · simp [hm, ih]

theorem mapUpdate_id_of_flag {f : SequelizeParserModelOperations → SequelizeParserModelOperations}
    {m : String} {s : Store}
    (h : ∀ p ∈ s, p.1 = m → f p.2 = p.2) : mapUpdate f m s = s := by
  induction s with
  | nil => rfl
  | cons p rest ih =>
    obtain ⟨k, v⟩ := p
    rw [mapUpdate_cons]
    have hrest : mapUpdate f m rest = rest :=
      ih (fun q hq => h q (List.mem_cons_of_mem _ hq))
    by_cases hk : k = m
    · have := h (k, v) (List.mem_cons_self _ _) hk
      simp only [if_pos hk, this, hrest]
    · simp only [if_neg hk, hrest]

theorem getOrCreate_of_isSome {m : String} {s : Store}
    (h : (assocLookup s m).isSome = true) (t : String) :
    getOrCreateModelOperations m t s = s := by
  simp [getOrCreateModelOperations, h]

theorem getOrCreate_of_none {m : String} {s : Store} (h : assocLookup s m = none)
    (t : String) :
    getOrCreateModelOperations m t s = s ++ [(m, freshRecord t)] := by
  simp [getOrCreateModelOperations, h, freshRecord]

theorem assocLookup_getOrCreate (m t : String) (s : Store) (n : String) :
    assocLookup (getOrCreateModelOperations m t s) n =
      match assocLookup s n with
      | some r => some r
      | none => if (assocLookup s m).isSome = false ∧ m = n then some (freshRecord t) else none := by
  rcases hm : assocLookup s m with _ | r
  · rw [getOrCreate_of_none hm, assocLookup_append_single]
    rcases hn : assocLookup s n with _ | r'
    · simp [hm]
    · simp
  · rw [getOrCreate_of_isSome (by simp [hm]) t]
    rcases hn : assocLookup s n with _ | r'
    · simp [hm]
    · simp

theorem assocLookup_getOrCreate_self (m t : String) (s : Store) :
    (assocLookup (getOrCreateModelOperations m t s) m).isSome = true := by
  rw [assocLookup_getOrCreate]
  rcases hn : assocLookup s m with _ | r
  · simp [hn]
  · simp

theorem flagOf_getOrCreate (m t : String) (s : Store) (n : String) (f : WriteFlag) :
    flagOf (getOrCreateModelOperations m t s) n f = flagOf s n f := by
  unfold flagOf
  rw [assocLookup_getOrCreate]
  rcases hn : assocLookup s n with _ | r
  · split_ifs <;> rcases f <;> simp [freshRecord, readFlag]
  · simp

theorem flagOf_setInsertFlag (m : String) (s : Store) (n : String) (f : WriteFlag) :
    flagOf (setInsertFlag m s) n f =
      if m = n ∧ f = .insertFlag then (assocLookup s n).isSome else flagOf s n f := by
  unfold flagOf
  rw [setInsertFlag_eq_mapUpdate, assocLookup_mapUpdate]
  by_cases hm : m = n
  · rcases hn : assocLookup s n with _ | r
    · rcases f <;> simp [hm, readFlag]
    · rcases f <;> simp [hm, readFlag]
  · simp [hm]

theorem flagOf_setUpdateFlag (m : String) (s : Store) (n : String) (f : WriteFlag) :
    flagOf (setUpdateFlag m s) n f =
      if m = n ∧ f = .updateFlag then (assocLookup s n).isSome else flagOf s n f := by
  unfold flagOf
  rw [setUpdateFlag_eq_mapUpdate, assocLookup_mapUpdate]
  by_cases hm : m = n
  · rcases hn : assocLookup s n with _ | r
    · rcases f <;> simp [hm, readFlag]
    · rcases f <;> simp [hm, readFlag]
  · simp [hm]

theorem flagOf_setDeleteFlag (m : String) (s : Store) (n : String) (f : WriteFlag) :
    flagOf (setDeleteFlag m s) n f =
      if m = n ∧ f = .deleteFlag then (assocLookup s n).isSome else flagOf s n f := by
  unfold flagOf
  rw [setDeleteFlag_eq_mapUpdate, assocLookup_mapUpdate]
  by_cases hm : m = n
  · rcases hn : assocLookup s n with _ | r
    · rcases f <;> simp [hm, readFlag]
    · rcases f <;> simp [hm, readFlag]
  · simp [hm]

theorem isSome_setInsertFlag (m : String) (s : Store) (n : String) :
    (assocLookup (setInsertFlag m s) n).isSome = (assocLookup s n).isSome := by
  rw [setInsertFlag_eq_mapUpdate, assocLookup_mapUpdate]
  by_cases hm : m = n <;> simp [hm]

theorem isSome_setUpdateFlag (m : String) (s : Store) (n : String) :
    (assocLookup (setUpdateFlag m s) n).isSome = (assocLookup s n).isSome := by
  rw [setUpdateFlag_eq_mapUpdate, assocLookup_mapUpdate]
  by_cases hm : m = n <;> simp [hm]

theorem isSome_setDeleteFlag (m : String) (s : Store) (n : String) :
    (assocLookup (setDeleteFlag m s) n).isSome = (assocLookup s n).isSome := by
  rw [setDeleteFlag_eq_mapUpdate, assocLookup_mapUpdate]
  by_cases hm : m = n <;> simp [hm]

theorem isSome_getOrCreate (m t : String) (s : Store) (n : String) :
    (assocLookup (getOrCreateModelOperations m t s) n).isSome =
      ((assocLookup s n).isSome || (m == n)) := by
  rw [assocLookup_getOrCreate]
  rcases hn : assocLookup s n with _ | r
  · split_ifs with hc
    · simp [hc.2]
    · have hne : ¬ m = n := by
        intro he
        subst he
        exact hc ⟨by simp [hn], rfl⟩
      simp [hne]
  · simp

theorem opsLE_refl (a : SequelizeParserModelOperations) : OpsLE a a :=
  ⟨id, id, id, id⟩

theorem opsLE_trans {a b c : SequelizeParserModelOperations} (h1 : OpsLE a b)
    (h2 : OpsLE b c) : OpsLE a c :=
  ⟨fun h => h2.1 (h1.1 h), fun h => h2.2.1 (h1.2.1 h), fun h => h2.2.2.1 (h1.2.2.1 h),
   fun h => h2.2.2.2 (h1.2.2.2 h)⟩

theorem storeLE_refl (s : Store) : StoreLE s s :=
  fun _ r h => ⟨r, h, opsLE_refl r⟩

theorem storeLE_trans {s t u : Store} (h1 : StoreLE s t) (h2 : StoreLE t u) :
    StoreLE s u := by
  intro n r h
  obtain ⟨r', h', hle⟩ := h1 n r h
  obtain ⟨r'', h'', hle'⟩ := h2 n r' h'
  exact ⟨r'', h'', opsLE_trans hle hle'⟩

theorem allSelect_lookup {s : Store} (h : AllSelect s) {n : String}
    {r : SequelizeParserModelOperations} (hl : assocLookup s n = some r) :
    r.isSelect = true :=
  h (n, r) (assocLookup_mem hl)

theorem preservesInv_id : PreservesInv (fun s => s) :=
  fun s => ⟨id, storeLE_refl s⟩

theorem preservesInv_comp {g1 g2 : Store → Store} (h1 : PreservesInv g1)
    (h2 : PreservesInv g2) : PreservesInv (fun s => g2 (g1 s)) := by
  intro s
  exact ⟨fun ha => (h2 (g1 s)).1 ((h1 s).1 ha), storeLE_trans (h1 s).2 (h2 (g1 s)).2⟩

theorem preservesInv_appendFresh (k t : String) :
    PreservesInv (fun s => s ++ [(k, freshRecord t)]) := by
  intro s
  constructor
  · intro ha p hp
    rcases List.mem_append.mp hp with hp | hp
    · exact ha p hp
    · simp at hp
      subst hp
      rfl
  · intro n r h
    refine ⟨r, ?_, opsLE_refl r⟩
    rw [assocLookup_append_single, h]

theorem preservesInv_getOrCreate (k t : String) :
    PreservesInv (getOrCreateModelOperations k t) := by
  intro s
  rcases hk : assocLookup s k with _ | r
  · rw [getOrCreate_of_none hk t]
    exact preservesInv_appendFresh k t s
  · rw [getOrCreate_of_isSome (by simp [hk]) t]
    exact ⟨id, storeLE_refl s⟩

theorem preservesInv_mapUpdate
    {f : SequelizeParserModelOperations → SequelizeParserModelOperations}
    (hsel : ∀ r, (f r).isSelect = r.isSelect) (hmono : ∀ r, OpsLE r (f r))
    (m : String) : PreservesInv (mapUpdate f m) := by
  intro s
  constructor
  · intro ha p hp
    simp only [mapUpdate, List.mem_map] at hp
    obtain ⟨q, hq, hpq⟩ := hp
    by_cases hqm : q.1 = m
    · rw [if_pos hqm] at hpq
      subst hpq
      simpa [hsel] using ha q hq
    · rw [if_neg hqm] at hpq
      subst hpq
      exact ha q hq
  · intro n r h
    rw [assocLookup_mapUpdate]
    by_cases hm : m = n
    · rw [if_pos hm, h]
      exact ⟨f r, rfl, hmono r⟩
    · rw [if_neg hm, h]
      exact ⟨r, rfl, opsLE_refl r⟩

theorem preservesInv_setInsertFlag (m : String) : PreservesInv (setInsertFlag m) := by
  have := preservesInv_mapUpdate (f := fun r => { r with isInsert := true })
    (fun r => rfl) (fun r => ⟨id, fun _ => rfl, id, id⟩) m
  intro s
  rw [setInsertFlag_eq_mapUpdate]
  exact this s

theorem preservesInv_setUpdateFlag (m : String) : PreservesInv (setUpdateFlag m) := by
  have := preservesInv_mapUpdate (f := fun r => { r with isUpdate := true })
    (fun r => rfl) (fun r => ⟨id, id, fun _ => rfl, id⟩) m
  intro s
  rw [setUpdateFlag_eq_mapUpdate]
  exact this s

theorem preservesInv_setDeleteFlag (m : String) : PreservesInv (setDeleteFlag m) := by
  have := preservesInv_mapUpdate (f := fun r => { r with isDelete := true })
    (fun r => rfl) (fun r => ⟨id, id, id, fun _ => rfl⟩) m
  intro s
  rw [setDeleteFlag_eq_mapUpdate]
  exact this s

theorem preservesInv_ite {c : Bool} {g1 g2 : Store → Store} (h1 : PreservesInv g1)
    (h2 : PreservesInv g2) : PreservesInv (fun s => if c = true then g1 s else g2 s) := by
  rcases c with _ | _
  · simpa using h2
  · simpa using h1

theorem preservesInv_foldl {α : Type} (g : Store → α → Store)
    (h : ∀ a, PreservesInv (fun st => g st a)) (l : List α) :
    PreservesInv (fun s => l.foldl g s) := by
  induction l with
  | nil => simpa using preservesInv_id
  | cons a rest ih =>
    intro s
    constructor
    · intro ha
      simp only [List.foldl_cons]
      exact ((ih (g s a)).1 (((h a) s).1 ha))
    · simp only [List.foldl_cons]
      exact storeLE_trans ((h a) s).2 (ih (g s a)).2

theorem invStep_refl (s : Store) : InvStep s s := ⟨id, storeLE_refl s⟩

theorem invStep_trans {s t u : Store} (h1 : InvStep s t) (h2 : InvStep t u) :
    InvStep s u :=
  ⟨fun h => h2.1 (h1.1 h), storeLE_trans h1.2 h2.2⟩

theorem invStep_of {g : Store → Store} (h : PreservesInv g) (s : Store) :
    InvStep s (g s) := ⟨(h s).1, (h s).2⟩

theorem getThroughModelOperations_eq (reg : Registry) (a : SeqAssociation) (s : Store) :
    getThroughModelOperations reg a s =
      match resolveThroughModel reg a with
      | none => (none, s)
      | some m => (some m, getOrCreateModelOperations m.name m.table s) := rfl

theorem invStep_getThrough_snd (reg : Registry) (a : SeqAssociation) (s : Store) :
    InvStep s (getThroughModelOperations reg a s).2 := by
  rw [getThroughModelOperations_eq]
  rcases resolveThroughModel reg a with _ | m
  · exact invStep_refl s
  · exact invStep_of (preservesInv_getOrCreate m.name m.table) s

theorem invStep_processModelWriteMethod (model : SeqModel) (method : String)
    (s : Store) : InvStep s (processModelWriteMethod model method s) := by
  unfold processModelWriteMethod
  split_ifs
  · exact invStep_refl s
  · rcases assocLookup SequelizeDefaultWriteMethodsRecord method with _ | operations
    · exact invStep_refl s
    · refine invStep_trans
        (invStep_of (preservesInv_getOrCreate model.name model.table) s) ?_
      refine invStep_of (preservesInv_foldl _ ?_ operations) _
      intro op
      rcases op
      · exact preservesInv_setInsertFlag model.name
      · exact preservesInv_setUpdateFlag model.name
      · exact preservesInv_setDeleteFlag model.name

theorem invStep_processMixinVerb (method : String) (targetName : String)
    (thrOpt : Option SeqModel) (s2 : Store) :
    InvStep s2 (processMixinVerb method targetName thrOpt s2) := by
  unfold processMixinVerb
  rcases thrOpt with _ | thr
  · split_ifs
    · exact invStep_of (preservesInv_setUpdateFlag targetName) s2
    · exact invStep_of (preservesInv_setInsertFlag targetName) s2
    · exact invStep_of (preservesInv_setUpdateFlag targetName) s2
    · exact invStep_of (preservesInv_setUpdateFlag targetName) s2
    · exact invStep_refl s2
  · split_ifs
    · exact invStep_of (preservesInv_setInsertFlag thr.name) s2
    · exact invStep_trans (invStep_of (preservesInv_setInsertFlag targetName) s2)
        (invStep_of (preservesInv_setInsertFlag thr.name) _)
    · exact invStep_trans (invStep_of (preservesInv_setInsertFlag thr.name) s2)
        (invStep_trans (invStep_of (preservesInv_setUpdateFlag thr.name) _)
          (invStep_of (preservesInv_setDeleteFlag thr.name) _))
    · exact invStep_of (preservesInv_setDeleteFlag thr.name) s2
    · exact invStep_refl s2

theorem invStep_processMixinResolved (reg : Registry) (method : String)
    (assoc : SeqAssociation) (s : Store) :
    InvStep s (processMixinResolved reg method assoc s) := by
  have key : ∀ s0 : Store,
      InvStep s0
        (match getThroughModelOperations reg assoc s0 with
         | (thrOpt, s2) => processMixinVerb method assoc.target.name thrOpt s2) := by
    intro s0
    rcases hth : getThroughModelOperations reg assoc s0 with ⟨thrOpt, s2⟩
    have h2 : InvStep s0 s2 := by
      have h := invStep_getThrough_snd reg assoc s0
      rw [hth] at h
      exact h
    exact invStep_trans h2 (invStep_processMixinVerb method assoc.target.name thrOpt s2)
  exact invStep_trans
    (invStep_of (preservesInv_getOrCreate assoc.target.name assoc.target.table) s)
    (key _)

theorem invStep_processMixinNamed (reg : Registry) (sourceModel : SeqModel)
    (method : String) (assocName : String) (s : Store) :
    InvStep s (processMixinNamed reg sourceModel method assocName s) := by
  unfold processMixinNamed
  rcases ha : assocLookup sourceModel.associations assocName with _ | assoc
  · exact invStep_refl s
  · show InvStep s
      (match assocLookup reg assoc.target.name with
       | none => s
       | some _ => processMixinResolved reg method assoc s)
    rcases hr : assocLookup reg assoc.target.name with _ | tm
    · exact invStep_refl s
    · exact invStep_processMixinResolved reg method assoc s

theorem invStep_processModelTypescriptMixins (reg : Registry) (sourceModel : SeqModel)
    (method : String) (args : List TSNode) (s : Store) :
    InvStep s (processModelTypescriptMixins reg sourceModel method args s) := by
  unfold processModelTypescriptMixins
  by_cases hg1 : isSequelizeTypescriptGeneratedWriteMethod method = false
  · rw [if_pos hg1]
    exact invStep_refl s
  · rw [if_neg hg1]
    by_cases hg2 : args.length < 2
    · rw [if_pos hg2]
      exact invStep_refl s
    · rw [if_neg hg2]
      rcases h0 : args[0]? with _ | a
      · exact invStep_refl s
      · show InvStep s
          (if isStringLiteralNode a = false then s
           else processMixinNamed reg sourceModel method (stringLiteralText a) s)
        by_cases hsl : isStringLiteralNode a = false
        · rw [if_pos hsl]
          exact invStep_refl s
        · rw [if_neg hsl]
          exact invStep_processMixinNamed reg sourceModel method (stringLiteralText a) s

theorem preservesInv_registerFresh (k t : String) :
    PreservesInv (fun st => if (assocLookup st k).isSome = true then st
      else st ++ [(k, freshRecord t)]) := by
  intro st
  dsimp only
  by_cases hp : (assocLookup st k).isSome = true
  · rw [if_pos hp]
    exact ⟨id, storeLE_refl st⟩
  · rw [if_neg hp]
    exact preservesInv_appendFresh k t st

theorem preservesInv_processImportSpecifier (reg : Registry) (spec : ImportSpecifier) :
    PreservesInv (fun st => processImportSpecifier reg st spec) := by
  intro st
  dsimp only
  unfold processImportSpecifier
  rcases hl : assocLookup reg (spec.propertyName.getD spec.importedName) with _ | model
  · exact preservesInv_id st
  · exact preservesInv_registerFresh model.name model.table st

theorem invStep_processImportDeclarationNode (reg : Registry)
    (onlyFrom : Option String) (node : ImportDeclarationNode) (s : Store) :
    InvStep s (processImportDeclarationNode reg onlyFrom node s) := by
  unfold processImportDeclarationNode
  split_ifs
  · exact invStep_refl s
  · exact invStep_of
      (preservesInv_foldl (processImportSpecifier reg)
        (preservesInv_processImportSpecifier reg) node.namedImports) s

theorem invStep_condSetInsert (c : Bool) (m : String) (s : Store) :
    InvStep s (if c = true then setInsertFlag m s else s) := by
  rcases c
  · exact invStep_refl s
  · exact invStep_of (preservesInv_setInsertFlag m) s

theorem invStep_condSetUpdate (c : Bool) (m : String) (s : Store) :
    InvStep s (if c = true then setUpdateFlag m s else s) := by
  rcases c
  · exact invStep_refl s
  · exact invStep_of (preservesInv_setUpdateFlag m) s

theorem invStep_condSetDelete (c : Bool) (m : String) (s : Store) :
    InvStep s (if c = true then setDeleteFlag m s else s) := by
  rcases c
  · exact invStep_refl s
  · exact invStep_of (preservesInv_setDeleteFlag m) s

theorem invStep_addHiddenThroughStep {reg : Registry} {a : SeqAssociation}
    {targetOps : SequelizeParserModelOperations} {s s' : Store}
    (h : addHiddenThroughStep reg a targetOps s = some s') : InvStep s s' := by
  unfold addHiddenThroughStep at h
  rw [getThroughModelOperations_eq] at h
  rcases hres : resolveThroughModel reg a with _ | m
  · rw [hres] at h
    dsimp only at h
    by_cases hf : (targetOps.isInsert || targetOps.isUpdate || targetOps.isDelete) = true
    · rw [if_pos hf] at h
      cases h
    · rw [if_neg hf] at h
      obtain rfl := Option.some.inj h
      exact invStep_refl s
  · rw [hres] at h
    dsimp only at h
    obtain rfl := Option.some.inj h
    refine invStep_trans (invStep_of (preservesInv_getOrCreate m.name m.table) s) ?_
    refine invStep_trans (invStep_condSetInsert targetOps.isInsert m.name _) ?_
    refine invStep_trans (invStep_condSetUpdate targetOps.isUpdate m.name _) ?_
    exact invStep_condSetDelete targetOps.isDelete m.name _

theorem invStep_addHiddenAssociationStep {reg : Registry} {a : SeqAssociation}
    {s s' : Store} (h : addHiddenAssociationStep reg a s = some s') : InvStep s s' := by
  unfold addHiddenAssociationStep at h
  split_ifs at h
  · cases h
    exact invStep_refl s
  · rcases ht : assocLookup s a.target.name with _ | targetOps
    · rw [ht] at h
      cases h
      exact invStep_refl s
    · rw [ht] at h
      exact invStep_addHiddenThroughStep h

theorem invStep_foldlM_assoc {reg : Registry}
    (l : List (String × SeqAssociation)) :
    ∀ {s s' : Store},
      l.foldlM (fun st p => addHiddenAssociationStep reg p.2 st) s = some s' →
      InvStep s s' := by
  induction l with
  | nil =>
    intro s s' h
    cases h
    exact invStep_refl _
  | cons p rest ih =>
    intro s s' h
    rw [List.foldlM_cons] at h
    rcases h1 : addHiddenAssociationStep reg p.2 s with _ | s1
    · rw [h1] at h
      cases h
    · rw [h1] at h
      exact invStep_trans (invStep_addHiddenAssociationStep h1) (ih h)

theorem invStep_addHiddenModelStep {reg : Registry} {s s' : Store} {k : String}
    (h : addHiddenModelStep reg s k = some s') : InvStep s s' := by
  unfold addHiddenModelStep at h
  rcases hm : assocLookup reg k with _ | model
  · rw [hm] at h
    cases h
  · rw [hm] at h
    dsimp only at h
    exact invStep_foldlM_assoc model.associations h

theorem invStep_addHiddenManyToManyModels {reg : Registry} {s s' : Store}
    (h : addHiddenManyToManyModels reg s = some s') : InvStep s s' := by
  unfold addHiddenManyToManyModels at h
  generalize hks : s.map Prod.fst = ks at h
  clear hks
  induction ks generalizing s with
  | nil =>
    cases h
    exact invStep_refl _
  | cons k rest ih =>
    rw [List.foldlM_cons] at h
    rcases h1 : addHiddenModelStep reg s k with _ | s1
    · rw [h1] at h
      cases h
    · rw [h1] at h
      exact invStep_trans (invStep_addHiddenModelStep h1) (ih h)

theorem flagOf_true_iff (s : Store) (n : String) (f : WriteFlag) :
    flagOf s n f = true ↔ ∃ r, assocLookup s n = some r ∧ readFlag r f = true := by
  unfold flagOf
  rcases h : assocLookup s n with _ | r
  · simp
  · simp

theorem flagOf_setInsert_present {m : String} {s : Store}
    (hp : (assocLookup s m).isSome = true) (n : String) (f : WriteFlag) :
    flagOf (setInsertFlag m s) n f =
      (flagOf s n f || ((n == m) && (f == WriteFlag.insertFlag))) := by
  rw [flagOf_setInsertFlag]
  by_cases h1 : m = n
  · subst h1
    by_cases h2 : f = WriteFlag.insertFlag
    · subst h2
      rw [if_pos ⟨rfl, rfl⟩]
      simp [hp]
    · rw [if_neg (fun hc => h2 hc.2)]
      have hb : (f == WriteFlag.insertFlag) = false := by
        simpa using h2
      simp [hb]
  · rw [if_neg (fun hc => h1 hc.1)]
    have hb : (n == m) = false := by
      simpa using fun he : n = m => h1 he.symm
    simp [hb]

theorem flagOf_setUpdate_present {m : String} {s : Store}
    (hp : (assocLookup s m).isSome = true) (n : String) (f : WriteFlag) :
    flagOf (setUpdateFlag m s) n f =
      (flagOf s n f || ((n == m) && (f == WriteFlag.updateFlag))) := by
  rw [flagOf_setUpdateFlag]
  by_cases h1 : m = n
  · subst h1
    by_cases h2 : f = WriteFlag.updateFlag
    · subst h2
      rw [if_pos ⟨rfl, rfl⟩]
      simp [hp]
    · rw [if_neg (fun hc => h2 hc.2)]
      have hb : (f == WriteFlag.updateFlag) = false := by
        simpa using h2
      simp [hb]
  · rw [if_neg (fun hc => h1 hc.1)]
    have hb : (n == m) = false := by
      simpa using fun he : n = m => h1 he.symm
    simp [hb]

theorem flagOf_setDelete_present {m : String} {s : Store}
    (hp : (assocLookup s m).isSome = true) (n : String) (f : WriteFlag) :
    flagOf (setDeleteFlag m s) n f =
      (flagOf s n f || ((n == m) && (f == WriteFlag.deleteFlag))) := by
  rw [flagOf_setDeleteFlag]
  by_cases h1 : m = n
  · subst h1
    by_cases h2 : f = WriteFlag.deleteFlag
    · subst h2
      rw [if_pos ⟨rfl, rfl⟩]
      simp [hp]
    · rw [if_neg (fun hc => h2 hc.2)]
      have hb : (f == WriteFlag.deleteFlag) = false := by
        simpa using h2
      simp [hb]
  · rw [if_neg (fun hc => h1 hc.1)]
    have hb : (n == m) = false := by
      simpa using fun he : n = m => h1 he.symm
    simp [hb]

theorem flagOf_mixinBaseStore (reg : Registry) (assoc : SeqAssociation) (s : Store)
    (n : String) (f : WriteFlag) :
    flagOf (mixinBaseStore reg assoc s) n f = flagOf s n f := by
  unfold mixinBaseStore
  rcases resolveThroughModel reg assoc with _ | m
  · exact flagOf_getOrCreate _ _ _ _ _
  · dsimp only
    rw [flagOf_getOrCreate, flagOf_getOrCreate]

theorem isSome_mixinBaseStore_target (reg : Registry) (assoc : SeqAssociation)
    (s : Store) :
    (assocLookup (mixinBaseStore reg assoc s) assoc.target.name).isSome = true := by
  unfold mixinBaseStore
  rcases resolveThroughModel reg assoc with _ | m
  · exact assocLookup_getOrCreate_self _ _ _
  · dsimp only
    rw [isSome_getOrCreate, assocLookup_getOrCreate_self]
    simp

theorem isSome_mixinBaseStore_through {reg : Registry} {assoc : SeqAssociation}
    {m : SeqModel} (hthr : resolveThroughModel reg assoc = some m) (s : Store) :
    (assocLookup (mixinBaseStore reg assoc s) m.name).isSome = true := by
  unfold mixinBaseStore
  rw [hthr]
  exact assocLookup_getOrCreate_self _ _ _

theorem processMixinResolved_eq (reg : Registry) (method : String)
    (assoc : SeqAssociation) (s : Store) :
    processMixinResolved reg method assoc s =
      processMixinVerb method assoc.target.name (resolveThroughModel reg assoc)
        (mixinBaseStore reg assoc s) := by
  unfold processMixinResolved mixinBaseStore
  dsimp only
  rw [getThroughModelOperations_eq]
  rcases resolveThroughModel reg assoc with _ | m
  · rfl
  · rfl

theorem processModelTypescriptMixins_run {reg : Registry} {sourceModel : SeqModel}
    {method : String} {args : List TSNode} {assocName : String} {assoc : SeqAssociation}
    (hm : isSequelizeTypescriptGeneratedWriteMethod method = true)
    (hargs : 2 ≤ args.length)
    (h0 : args[0]? = some (TSNode.strLit assocName))
    (ha : assocLookup sourceModel.associations assocName = some assoc)
    (htm : (assocLookup reg assoc.target.name).isSome = true) (s : Store) :
    processModelTypescriptMixins reg sourceModel method args s =
      processMixinVerb method assoc.target.name (resolveThroughModel reg assoc)
        (mixinBaseStore reg assoc s) := by
  unfold processModelTypescriptMixins
  rw [if_neg (by simp [hm]), if_neg (by omega), h0]
  dsimp only [isStringLiteralNode, stringLiteralText]
  rw [if_neg (by simp)]
  unfold processMixinNamed
  rw [ha]
  dsimp only
  obtain ⟨tm, htm'⟩ := Option.isSome_iff_exists.mp htm
  rw [htm']
  exact processMixinResolved_eq reg method assoc s

theorem flagOf_mixinVerb_run (reg : Registry) (assoc : SeqAssociation)
    {method : String} (hm : isSequelizeTypescriptGeneratedWriteMethod method = true)
    (s : Store) (n : String) (f : WriteFlag) :
    flagOf (processMixinVerb method assoc.target.name (resolveThroughModel reg assoc)
        (mixinBaseStore reg assoc s)) n f =
      (flagOf s n f ||
        specMixinDelta method assoc.target.name
          ((resolveThroughModel reg assoc).map SeqModel.name) n f) := by
  have hmem : method = "$add" ∨ method = "$create" ∨ method = "$set" ∨
      method = "$remove" := by
    simp [isSequelizeTypescriptGeneratedWriteMethod,
      SequelizeTypescriptGeneratedWriteMixins] at hm
    tauto
  have htgt := isSome_mixinBaseStore_target reg assoc s
  rcases hthr : resolveThroughModel reg assoc with _ | m
  · rcases hmem with h | h | h | h <;> subst h
    · rw [show processMixinVerb "$add" assoc.target.name none (mixinBaseStore reg assoc s)
          = setUpdateFlag assoc.target.name (mixinBaseStore reg assoc s) from rfl]
      rw [flagOf_setUpdate_present htgt, flagOf_mixinBaseStore]
      rfl
    · rw [show processMixinVerb "$create" assoc.target.name none (mixinBaseStore reg assoc s)
          = setInsertFlag assoc.target.name (mixinBaseStore reg assoc s) from rfl]
      rw [flagOf_setInsert_present htgt, flagOf_mixinBaseStore]
      rfl
    · rw [show processMixinVerb "$set" assoc.target.name none (mixinBaseStore reg assoc s)
          = setUpdateFlag assoc.target.name (mixinBaseStore reg assoc s) from rfl]
      rw [flagOf_setUpdate_present htgt, flagOf_mixinBaseStore]
      rfl
    · rw [show processMixinVerb "$remove" assoc.target.name none (mixinBaseStore reg assoc s)
          = setUpdateFlag assoc.target.name (mixinBaseStore reg assoc s) from rfl]
      rw [flagOf_setUpdate_present htgt, flagOf_mixinBaseStore]
      rfl
  · have hthru := isSome_mixinBaseStore_through hthr s
    rcases hmem with h | h | h | h <;> subst h
    · rw [show processMixinVerb "$add" assoc.target.name (some m) (mixinBaseStore reg assoc s)
          = setInsertFlag m.name (mixinBaseStore reg assoc s) from rfl]
      rw [flagOf_setInsert_present hthru, flagOf_mixinBaseStore]
      rfl
    · rw [show processMixinVerb "$create" assoc.target.name (some m) (mixinBaseStore reg assoc s)
          = setInsertFlag m.name (setInsertFlag assoc.target.name (mixinBaseStore reg assoc s)) from rfl]
      rw [flagOf_setInsert_present (by rw [isSome_setInsertFlag]; exact hthru),
        flagOf_setInsert_present htgt, flagOf_mixinBaseStore]
      show (flagOf s n f || ((n == assoc.target.name) && (f == WriteFlag.insertFlag)) ||
          ((n == m.name) && (f == WriteFlag.insertFlag))) =
        (flagOf s n f || (((n == assoc.target.name) && (f == WriteFlag.insertFlag)) ||
          ((n == m.name) && (f == WriteFlag.insertFlag))))
      rw [Bool.or_assoc]
    · rw [show processMixinVerb "$set" assoc.target.name (some m) (mixinBaseStore reg assoc s)
          = setDeleteFlag m.name (setUpdateFlag m.name
              (setInsertFlag m.name (mixinBaseStore reg assoc s))) from rfl]
      rw [flagOf_setDelete_present
          (by rw [isSome_setUpdateFlag, isSome_setInsertFlag]; exact hthru),
        flagOf_setUpdate_present (by rw [isSome_setInsertFlag]; exact hthru),
        flagOf_setInsert_present hthru, flagOf_mixinBaseStore]
      show (flagOf s n f || ((n == m.name) && (f == WriteFlag.insertFlag)) ||
          ((n == m.name) && (f == WriteFlag.updateFlag)) ||
          ((n == m.name) && (f == WriteFlag.deleteFlag))) =
        (flagOf s n f || (n == m.name))
      rcases f <;> by_cases hn : n = m.name
      · subst hn
        simp
      · have hb : (n == m.name) = false := by simpa using hn
        simp [hb]
      · subst hn
        simp
      · have hb : (n == m.name) = false := by simpa using hn
        simp [hb]
      · subst hn
        simp
      · have hb : (n == m.name) = false := by simpa using hn
        simp [hb]
    · rw [show processMixinVerb "$remove" assoc.target.name (some m) (mixinBaseStore reg assoc s)
          = setDeleteFlag m.name (mixinBaseStore reg assoc s) from rfl]
      rw [flagOf_setDelete_present hthru, flagOf_mixinBaseStore]
      rfl

theorem getChildren_propertyAccess_length (e : TSNode) (b : Bool) (nm : TSNode) :
    (getChildren (TSNode.propertyAccess e b nm)).length = 3 := by
  rcases b <;> rfl

theorem getChildren_propertyAccess_third (e : TSNode) (b : Bool) (nm : TSNode) :
    (getChildren (TSNode.propertyAccess e b nm))[2]? = some nm := by
  rcases b <;> rfl

theorem processModelWriteMethod_mixin_id {method : String}
    (hm : isSequelizeTypescriptGeneratedWriteMethod method = true)
    (model : SeqModel) (s : Store) : processModelWriteMethod model method s = s := by
  unfold processModelWriteMethod
  rw [if_pos hm]

theorem mixin_method_ne_empty {method : String}
    (hm : isSequelizeTypescriptGeneratedWriteMethod method = true) : method ≠ "" := by
  simp [isSequelizeTypescriptGeneratedWriteMethod,
    SequelizeTypescriptGeneratedWriteMixins] at hm
  rcases hm with h | h | h | h <;> subst h <;> decide

theorem mixin_is_write_method {method : String}
    (hm : isSequelizeTypescriptGeneratedWriteMethod method = true) :
    isSequelizeModelWriteMethod method = true := by
  unfold isSequelizeModelWriteMethod
  rw [hm]
  simp

/-- A mixin call whose receiver resolves and whose guards all pass runs the
verb's flag assignments over the get-or-created target/through records;
the direct write-method classifier contributes nothing for a mixin
verb. -/
theorem processCallExpression_mixin_run {reg : Registry} {checker : TSChecker}
    {recv : TSNode} {b : Bool} {method : String} {args : List TSNode}
    {firstNode : TSNode} {sourceModel : SeqModel} {assocName : String}
    {assoc : SeqAssociation}
    (hm : isSequelizeTypescriptGeneratedWriteMethod method = true)
    (hft : getFirstToken? (TSNode.propertyAccess recv b (TSNode.ident method)) =
      some firstNode)
    (hfm : findModelFromNode reg checker firstNode = some sourceModel)
    (hargs : 2 ≤ args.length)
    (h0 : args[0]? = some (TSNode.strLit assocName))
    (ha : assocLookup sourceModel.associations assocName = some assoc)
    (htm : (assocLookup reg assoc.target.name).isSome = true) (s : Store) :
    processCallExpression reg checker
        ⟨TSNode.propertyAccess recv b (TSNode.ident method), args⟩ s =
      processMixinVerb method assoc.target.name (resolveThroughModel reg assoc)
        (mixinBaseStore reg assoc s) := by
  unfold processCallExpression
  dsimp only
  rw [hft]
  unfold processCallWithFirstToken
  dsimp only
  rw [if_neg (by rw [getChildren_propertyAccess_length]; omega)]
  rw [getChildren_propertyAccess_third]
  dsimp only [getText]
  rw [if_neg (mixin_method_ne_empty hm)]
  rw [if_neg (by simp [isIdentifierNode])]
  rw [if_neg (by simp [mixin_is_write_method hm])]
  unfold processResolvedCall
  rw [hfm]
  dsimp only
  rw [processModelWriteMethod_mixin_id hm]
  exact processModelTypescriptMixins_run hm hargs h0 ha htm s

/-!
## Record-preservation lemmas for frame and select properties
-/

theorem assocLookup_getOrCreate_of_present {s : Store} {n : String}
    {r : SequelizeParserModelOperations} (h : assocLookup s n = some r)
    (m t : String) : assocLookup (getOrCreateModelOperations m t s) n = some r := by
  rw [assocLookup_getOrCreate, h]

theorem assocLookup_getOrCreate_other {m n : String} (hne : m ≠ n) (t : String)
    (s : Store) :
    assocLookup (getOrCreateModelOperations m t s) n = assocLookup s n := by
  rw [assocLookup_getOrCreate]
  rcases h : assocLookup s n with _ | r
  · simp [hne]
  · rfl

theorem assocLookup_setInsertFlag_other {m n : String} (hne : m ≠ n) (s : Store) :
    assocLookup (setInsertFlag m s) n = assocLookup s n := by
  rw [setInsertFlag_eq_mapUpdate, assocLookup_mapUpdate, if_neg hne]

theorem assocLookup_setUpdateFlag_other {m n : String} (hne : m ≠ n) (s : Store) :
    assocLookup (setUpdateFlag m s) n = assocLookup s n := by
  rw [setUpdateFlag_eq_mapUpdate, assocLookup_mapUpdate, if_neg hne]

theorem assocLookup_setDeleteFlag_other {m n : String} (hne : m ≠ n) (s : Store) :
    assocLookup (setDeleteFlag m s) n = assocLookup s n := by
  rw [setDeleteFlag_eq_mapUpdate, assocLookup_mapUpdate, if_neg hne]

theorem assocLookup_mixinBaseStore_other {reg : Registry} {assoc : SeqAssociation}
    {n : String} (hnt : n ≠ assoc.target.name)
    (hnthru : ∀ m, resolveThroughModel reg assoc = some m → n ≠ m.name) (s : Store) :
    assocLookup (mixinBaseStore reg assoc s) n = assocLookup s n := by
  unfold mixinBaseStore
  rcases hthr : resolveThroughModel reg assoc with _ | m
  · exact assocLookup_getOrCreate_other (Ne.symm hnt) _ _
  · dsimp only
    rw [assocLookup_getOrCreate_other (Ne.symm (hnthru m hthr)) _ _,
      assocLookup_getOrCreate_other (Ne.symm hnt) _ _]

theorem assocLookup_processMixinVerb_other {method targetName : String}
    {thrOpt : Option SeqModel} {n : String} (hnt : n ≠ targetName)
    (hnthru : ∀ m, thrOpt = some m → n ≠ m.name) (s : Store) :
    assocLookup (processMixinVerb method targetName thrOpt s) n = assocLookup s n := by
  unfold processMixinVerb
  rcases thrOpt with _ | thr
  · split_ifs
    · exact assocLookup_setUpdateFlag_other (Ne.symm hnt) s
    · exact assocLookup_setInsertFlag_other (Ne.symm hnt) s
    · exact assocLookup_setUpdateFlag_other (Ne.symm hnt) s
    · exact assocLookup_setUpdateFlag_other (Ne.symm hnt) s
    · rfl
  · have hth : n ≠ thr.name := hnthru thr rfl
    split_ifs
    · exact assocLookup_setInsertFlag_other (Ne.symm hth) s
    · rw [assocLookup_setInsertFlag_other (Ne.symm hth),
        assocLookup_setInsertFlag_other (Ne.symm hnt)]
    · rw [assocLookup_setDeleteFlag_other (Ne.symm hth),
        assocLookup_setUpdateFlag_other (Ne.symm hth),
        assocLookup_setInsertFlag_other (Ne.symm hth)]
    · exact assocLookup_setDeleteFlag_other (Ne.symm hth) s
    · rfl

theorem selectAt_setInsertFlag (m : String) {s : Store} {n : String}
    (h : SelectAt s n) : SelectAt (setInsertFlag m s) n := by
  obtain ⟨r, hr, hs⟩ := h
  rw [setInsertFlag_eq_mapUpdate]
  by_cases hm : m = n
  · exact ⟨{ r with isInsert := true },
      by rw [assocLookup_mapUpdate, if_pos hm, hr]; rfl, hs⟩
  · exact ⟨r, by rw [assocLookup_mapUpdate, if_neg hm]; exact hr, hs⟩

theorem selectAt_setUpdateFlag (m : String) {s : Store} {n : String}
    (h : SelectAt s n) : SelectAt (setUpdateFlag m s) n := by
  obtain ⟨r, hr, hs⟩ := h
  rw [setUpdateFlag_eq_mapUpdate]
  by_cases hm : m = n
  · exact ⟨{ r with isUpdate := true },
      by rw [assocLookup_mapUpdate, if_pos hm, hr]; rfl, hs⟩
  · exact ⟨r, by rw [assocLookup_mapUpdate, if_neg hm]; exact hr, hs⟩

theorem selectAt_setDeleteFlag (m : String) {s : Store} {n : String}
    (h : SelectAt s n) : SelectAt (setDeleteFlag m s) n := by
  obtain ⟨r, hr, hs⟩ := h
  rw [setDeleteFlag_eq_mapUpdate]
  by_cases hm : m = n
  · exact ⟨{ r with isDelete := true },
      by rw [assocLookup_mapUpdate, if_pos hm, hr]; rfl, hs⟩
  · exact ⟨r, by rw [assocLookup_mapUpdate, if_neg hm]; exact hr, hs⟩

theorem selectAt_getOrCreate (m t : String) {s : Store} {n : String}
    (h : SelectAt s n) : SelectAt (getOrCreateModelOperations m t s) n := by
  obtain ⟨r, hr, hs⟩ := h
  exact ⟨r, assocLookup_getOrCreate_of_present hr m t, hs⟩

theorem selectAt_getOrCreate_self (m t : String) {s : Store}
    (hsel : ∀ r, assocLookup s m = some r → r.isSelect = true) :
    SelectAt (getOrCreateModelOperations m t s) m := by
  rcases h : assocLookup s m with _ | r
  · refine ⟨freshRecord t, ?_, rfl⟩
    rw [assocLookup_getOrCreate, h]
    dsimp only
    rw [if_pos ⟨rfl, rfl⟩]
  · exact ⟨r, assocLookup_getOrCreate_of_present h m t, hsel r h⟩

theorem selectAt_processMixinVerb (method targetName : String)
    (thrOpt : Option SeqModel) {s : Store} {n : String} (h : SelectAt s n) :
    SelectAt (processMixinVerb method targetName thrOpt s) n := by
  unfold processMixinVerb
  rcases thrOpt with _ | thr
  · split_ifs
    · exact selectAt_setUpdateFlag _ h
    · exact selectAt_setInsertFlag _ h
    · exact selectAt_setUpdateFlag _ h
    · exact selectAt_setUpdateFlag _ h
    · exact h
  · split_ifs
    · exact selectAt_setInsertFlag _ h
    · exact selectAt_setInsertFlag _ (selectAt_setInsertFlag _ h)
    · exact selectAt_setDeleteFlag _ (selectAt_setUpdateFlag _ (selectAt_setInsertFlag _ h))
    · exact selectAt_setDeleteFlag _ h
    · exact h

theorem selectAt_mixinBaseStore_target {reg : Registry} {assoc : SeqAssociation}
    {s : Store}
    (hsel : ∀ r, assocLookup s assoc.target.name = some r → r.isSelect = true) :
    SelectAt (mixinBaseStore reg assoc s) assoc.target.name := by
  unfold mixinBaseStore
  rcases resolveThroughModel reg assoc with _ | m
  · exact selectAt_getOrCreate_self _ _ hsel
  · exact selectAt_getOrCreate _ _ (selectAt_getOrCreate_self _ _ hsel)

/-!
## Claim theorems
-/

/-- Claim C1, counterexample to the claim as stated.  The claim's premises
hold for the call `User.$add("pets", p)` — the verb is `$add`, the
receiver `User` resolves to a registered entity, the string-literal
association name `pets` is found on it — yet because the association's
target `Ghost` is NOT registered, the handler applies no delta at all
(result store unchanged, empty), while the claim's effect table (no
through entity resolved) prescribes `target.update = true` for `$add`
(second conjunct: the prescribed delta at `Ghost`/update is `true`). -/
theorem claim1_counterexample :
    processCallExpression ghostRegistry nullChecker
        ⟨TSNode.propertyAccess (TSNode.ident "User") false (TSNode.ident "$add"),
         [TSNode.strLit "pets", TSNode.ident "p"]⟩ [] = [] ∧
      specMixinDelta "$add" "Ghost" none "Ghost" WriteFlag.updateFlag = true := by
  constructor
  · rfl
  · rfl

/-- Claim C1 (amended): for every association-mixin call whose verb is one
of `$add`, `$create`, `$set`, `$remove`, whose receiver resolves to a
registered entity, whose string-literal association name is found on that
entity, **and whose target entity is registered** (the premise the
counterexample forces), the insert/update/delete deltas applied to the
store are exactly those of the effect table — for every entity name and
every write flag, the new flag value is the old one OR-ed with exactly the
table's delta, so no other write flag is set by the call. -/
theorem claim1_mixin_effect_table {reg : Registry} {checker : TSChecker}
    {recv : TSNode} {b : Bool} {method : String} {args : List TSNode}
    {firstNode : TSNode} {sourceModel : SeqModel} {assocName : String}
    {assoc : SeqAssociation}
    (hm : isSequelizeTypescriptGeneratedWriteMethod method = true)
    (hft : getFirstToken? (TSNode.propertyAccess recv b (TSNode.ident method)) =
      some firstNode)
    (hfm : findModelFromNode reg checker firstNode = some sourceModel)
    (hargs : 2 ≤ args.length)
    (h0 : args[0]? = some (TSNode.strLit assocName))
    (ha : assocLookup sourceModel.associations assocName = some assoc)
    (htm : (assocLookup reg assoc.target.name).isSome = true) (s : Store) :
    ∀ n f,
      flagOf (processCallExpression reg checker
          ⟨TSNode.propertyAccess recv b (TSNode.ident method), args⟩ s) n f =
        (flagOf s n f ||
          specMixinDelta method assoc.target.name
            ((resolveThroughModel reg assoc).map SeqModel.name) n f) := by
  intro n f
  rw [processCallExpression_mixin_run hm hft hfm hargs h0 ha htm s]
  exact flagOf_mixinVerb_run reg assoc hm s n f

/-- Witness for C1 at the concrete schema `User` many-to-many `Role`
through `UserRole`, on the call `user.$add("roles", role)`. -/
theorem claim1_witness :
    isSequelizeTypescriptGeneratedWriteMethod "$add" = true ∧
    getFirstToken? (TSNode.propertyAccess (TSNode.ident "user") false
      (TSNode.ident "$add")) = some (TSNode.ident "user") ∧
    findModelFromNode demoRegistry demoChecker (TSNode.ident "user") = some demoUser ∧
    2 ≤ ([TSNode.strLit "roles", TSNode.ident "role"] : List TSNode).length ∧
    ([TSNode.strLit "roles", TSNode.ident "role"] : List TSNode)[0]? =
      some (TSNode.strLit "roles") ∧
    assocLookup demoUser.associations "roles" = some demoRolesAssoc ∧
    (assocLookup demoRegistry demoRolesAssoc.target.name).isSome = true ∧
    flagOf (processCallExpression demoRegistry demoChecker
        ⟨TSNode.propertyAccess (TSNode.ident "user") false (TSNode.ident "$add"),
         [TSNode.strLit "roles", TSNode.ident "role"]⟩ []) "UserRole"
        WriteFlag.insertFlag =
      (flagOf [] "UserRole" WriteFlag.insertFlag ||
        specMixinDelta "$add" demoRolesAssoc.target.name
          ((resolveThroughModel demoRegistry demoRolesAssoc).map SeqModel.name)
          "UserRole" WriteFlag.insertFlag) :=
  ⟨by decide, rfl, rfl, by decide, rfl, rfl, by decide,
    @claim1_mixin_effect_table demoRegistry demoChecker (TSNode.ident "user") false
      "$add" [TSNode.strLit "roles", TSNode.ident "role"] (TSNode.ident "user")
      demoUser "roles" demoRolesAssoc (by decide) rfl rfl (by decide) rfl rfl
      (by decide) [] "UserRole" WriteFlag.insertFlag⟩

/-- Claim C4: every operation of the analysis — import processing, direct
write classification, association-mixin handling, and the completion
pass — preserves the store invariant: every existing record has
`select = true`, each insert/update/delete flag of an existing record only
moves from `false` to `true`, and no record is ever removed (the
completion pass's guarantee is stated on its normal, non-throwing
outcome). -/
theorem claim4_flags_monotone_invariant (reg : Registry) (s : Store)
    (hsel : AllSelect s) :
    (∀ onlyFrom node,
      AllSelect (processImportDeclarationNode reg onlyFrom node s) ∧
        StoreLE s (processImportDeclarationNode reg onlyFrom node s)) ∧
    (∀ model method,
      AllSelect (processModelWriteMethod model method s) ∧
        StoreLE s (processModelWriteMethod model method s)) ∧
    (∀ sourceModel method args,
      AllSelect (processModelTypescriptMixins reg sourceModel method args s) ∧
        StoreLE s (processModelTypescriptMixins reg sourceModel method args s)) ∧
    (∀ s', addHiddenManyToManyModels reg s = some s' →
      AllSelect s' ∧ StoreLE s s') := by
  refine ⟨?_, ?_, ?_, ?_⟩
  · intro onlyFrom node
    have h := invStep_processImportDeclarationNode reg onlyFrom node s
    exact ⟨h.1 hsel, h.2⟩
  · intro model method
    have h := invStep_processModelWriteMethod model method s
    exact ⟨h.1 hsel, h.2⟩
  · intro sourceModel method args
    have h := invStep_processModelTypescriptMixins reg sourceModel method args s
    exact ⟨h.1 hsel, h.2⟩
  · intro s' h
    have h2 := invStep_addHiddenManyToManyModels h
    exact ⟨h2.1 hsel, h2.2⟩

/-- Witness for C4 at the demo registry and a concrete store. -/
theorem claim4_witness :
    AllSelect demoStoreUser ∧
      ((∀ onlyFrom node,
        AllSelect (processImportDeclarationNode demoRegistry onlyFrom node demoStoreUser) ∧
          StoreLE demoStoreUser
            (processImportDeclarationNode demoRegistry onlyFrom node demoStoreUser)) ∧
      (∀ model method,
        AllSelect (processModelWriteMethod model method demoStoreUser) ∧
          StoreLE demoStoreUser (processModelWriteMethod model method demoStoreUser)) ∧
      (∀ sourceModel method args,
        AllSelect
          (processModelTypescriptMixins demoRegistry sourceModel method args demoStoreUser) ∧
          StoreLE demoStoreUser
            (processModelTypescriptMixins demoRegistry sourceModel method args demoStoreUser)) ∧
      (∀ s', addHiddenManyToManyModels demoRegistry demoStoreUser = some s' →
        AllSelect s' ∧ StoreLE demoStoreUser s')) :=
  ⟨by unfold AllSelect; decide,
    claim4_flags_monotone_invariant demoRegistry demoStoreUser
      (by unfold AllSelect; decide)⟩

/-- Claim C9: frame property of the mixin handler.  For a call
`user.$add("roles", role)` whose receiver resolves to `User`, whose
association `roles` is many-to-many to the registered target through a
join model (`UserRole`), and whose own name differs from the target's and
the join's: the call sets the join record's insert flag to true and leaves
the record of the source entity (`User`) — hence every one of its flags —
exactly unchanged. -/
theorem claim9_mixin_frame {reg : Registry} {checker : TSChecker}
    {recv : TSNode} {b : Bool} {args : List TSNode} {firstNode : TSNode}
    {sourceModel : SeqModel} {assocName : String} {assoc : SeqAssociation}
    {thrM : SeqModel}
    (hft : getFirstToken? (TSNode.propertyAccess recv b (TSNode.ident "$add")) =
      some firstNode)
    (hfm : findModelFromNode reg checker firstNode = some sourceModel)
    (hargs : 2 ≤ args.length)
    (h0 : args[0]? = some (TSNode.strLit assocName))
    (ha : assocLookup sourceModel.associations assocName = some assoc)
    (htm : (assocLookup reg assoc.target.name).isSome = true)
    (hthr : resolveThroughModel reg assoc = some thrM)
    (hne1 : sourceModel.name ≠ assoc.target.name)
    (hne2 : sourceModel.name ≠ thrM.name) (s : Store) :
    assocLookup (processCallExpression reg checker
        ⟨TSNode.propertyAccess recv b (TSNode.ident "$add"), args⟩ s)
        sourceModel.name = assocLookup s sourceModel.name ∧
    ∃ r, assocLookup (processCallExpression reg checker
        ⟨TSNode.propertyAccess recv b (TSNode.ident "$add"), args⟩ s)
        thrM.name = some r ∧ r.isInsert = true := by
  rw [processCallExpression_mixin_run (by decide) hft hfm hargs h0 ha htm s]
  have hnthru : ∀ m, resolveThroughModel reg assoc = some m →
      sourceModel.name ≠ m.name := by
    intro m hmm
    rw [hthr] at hmm
    cases hmm
    exact hne2
  constructor
  · rw [assocLookup_processMixinVerb_other hne1 hnthru,
      assocLookup_mixinBaseStore_other hne1 hnthru]
  · have hflag : flagOf (processMixinVerb "$add" assoc.target.name
        (resolveThroughModel reg assoc) (mixinBaseStore reg assoc s))
        thrM.name WriteFlag.insertFlag = true := by
      rw [flagOf_mixinVerb_run reg assoc (by decide) s, hthr]
      simp [specMixinDelta]
    obtain ⟨r, hr, hf⟩ := (flagOf_true_iff _ _ _).mp hflag
    exact ⟨r, hr, hf⟩

/-- Witness for C9 at the concrete `User`/`Role`/`UserRole` schema. -/
theorem claim9_witness :
    getFirstToken? (TSNode.propertyAccess (TSNode.ident "user") false
      (TSNode.ident "$add")) = some (TSNode.ident "user") ∧
    findModelFromNode demoRegistry demoChecker (TSNode.ident "user") = some demoUser ∧
    resolveThroughModel demoRegistry demoRolesAssoc = some demoUserRole ∧
    demoUser.name ≠ demoRolesAssoc.target.name ∧
    demoUser.name ≠ demoUserRole.name ∧
    (assocLookup (processCallExpression demoRegistry demoChecker
        ⟨TSNode.propertyAccess (TSNode.ident "user") false (TSNode.ident "$add"),
         [TSNode.strLit "roles", TSNode.ident "role"]⟩ demoStoreUser)
        demoUser.name = assocLookup demoStoreUser demoUser.name ∧
      ∃ r, assocLookup (processCallExpression demoRegistry demoChecker
          ⟨TSNode.propertyAccess (TSNode.ident "user") false (TSNode.ident "$add"),
           [TSNode.strLit "roles", TSNode.ident "role"]⟩ demoStoreUser)
          demoUserRole.name = some r ∧ r.isInsert = true) :=
  ⟨rfl, rfl, rfl, by decide, by decide,
    @claim9_mixin_frame demoRegistry demoChecker (TSNode.ident "user") false
      [TSNode.strLit "roles", TSNode.ident "role"] (TSNode.ident "user") demoUser
      "roles" demoRolesAssoc demoUserRole rfl rfl (by decide) rfl rfl (by decide)
      rfl (by decide) (by decide) demoStoreUser⟩

/-- Claim C10 (implicit in the code): every association-mixin call that
reaches the effect stage — verb recognized, at least two arguments,
string-literal association name found on the source entity, target
registered — ensures a usage record exists for the association's target
entity with `select = true`, even for the verbs whose effect-table deltas
touch only the join entity (stated under the invariant hypothesis that a
pre-existing target record carries `select = true`, which every record the
analysis creates does). -/
theorem claim10_mixin_target_select {reg : Registry} {sourceModel : SeqModel}
    {method : String} {args : List TSNode} {assocName : String}
    {assoc : SeqAssociation}
    (hm : isSequelizeTypescriptGeneratedWriteMethod method = true)
    (hargs : 2 ≤ args.length)
    (h0 : args[0]? = some (TSNode.strLit assocName))
    (ha : assocLookup sourceModel.associations assocName = some assoc)
    (htm : (assocLookup reg assoc.target.name).isSome = true) (s : Store)
    (hsel : ∀ r, assocLookup s assoc.target.name = some r → r.isSelect = true) :
    ∃ r, assocLookup (processModelTypescriptMixins reg sourceModel method args s)
        assoc.target.name = some r ∧ r.isSelect = true := by
  rw [processModelTypescriptMixins_run hm hargs h0 ha htm s]
  exact selectAt_processMixinVerb _ _ _ (selectAt_mixinBaseStore_target hsel)

/-- Witness for C10: `$add` on the demo schema starting from the empty
store — the target `Role` receives a select-only record even though the
`$add` delta touches only `UserRole`. -/
theorem claim10_witness :
    isSequelizeTypescriptGeneratedWriteMethod "$add" = true ∧
    assocLookup demoUser.associations "roles" = some demoRolesAssoc ∧
    (assocLookup demoRegistry demoRolesAssoc.target.name).isSome = true ∧
    (∀ r, assocLookup ([] : Store) demoRolesAssoc.target.name = some r →
      r.isSelect = true) ∧
    ∃ r, assocLookup (processModelTypescriptMixins demoRegistry demoUser "$add"
        [TSNode.strLit "roles", TSNode.ident "role"] [])
        demoRolesAssoc.target.name = some r ∧ r.isSelect = true :=
  ⟨by decide, rfl, by decide, (fun _ h => by cases h),
    @claim10_mixin_target_select demoRegistry demoUser "$add"
      [TSNode.strLit "roles", TSNode.ident "role"] "roles" demoRolesAssoc
      (by decide) (by decide) rfl rfl (by decide) [] (fun _ h => by cases h)⟩

/-- Claim C3: the direct write-method classifier maps method names to
operation sets exactly as the spec's table states — the fifteen listed
names carry exactly the listed operations, and every method name outside
the fifteen contributes no usage effect through the direct classifier
(`processModelWriteMethod` leaves the store unchanged, whether the name is
a mixin verb or entirely unknown). -/
theorem claim3_classifier_table :
    ((assocLookup SequelizeDefaultWriteMethodsRecord "create" =
        some [SequelizeWriteOperationType.INSERT]) ∧
      (assocLookup SequelizeDefaultWriteMethodsRecord "bulkCreate" =
        some [SequelizeWriteOperationType.INSERT]) ∧
      (assocLookup SequelizeDefaultWriteMethodsRecord "findOrCreate" =
        some [SequelizeWriteOperationType.INSERT]) ∧
      (assocLookup SequelizeDefaultWriteMethodsRecord "findOrBuild" =
        some [SequelizeWriteOperationType.INSERT]) ∧
      (assocLookup SequelizeDefaultWriteMethodsRecord "findCreateFind" =
        some [SequelizeWriteOperationType.INSERT]) ∧
      (assocLookup SequelizeDefaultWriteMethodsRecord "build" =
        some [SequelizeWriteOperationType.INSERT]) ∧
      (assocLookup SequelizeDefaultWriteMethodsRecord "update" =
        some [SequelizeWriteOperationType.UPDATE]) ∧
      (assocLookup SequelizeDefaultWriteMethodsRecord "save" =
        some [SequelizeWriteOperationType.UPDATE]) ∧
      (assocLookup SequelizeDefaultWriteMethodsRecord "set" =
        some [SequelizeWriteOperationType.UPDATE]) ∧
      (assocLookup SequelizeDefaultWriteMethodsRecord "increment" =
        some [SequelizeWriteOperationType.UPDATE]) ∧
      (assocLookup SequelizeDefaultWriteMethodsRecord "decrement" =
        some [SequelizeWriteOperationType.UPDATE]) ∧
      (assocLookup SequelizeDefaultWriteMethodsRecord "restore" =
        some [SequelizeWriteOperationType.UPDATE]) ∧
      (assocLookup SequelizeDefaultWriteMethodsRecord "bulkUpdate" =
        some [SequelizeWriteOperationType.UPDATE]) ∧
      (assocLookup SequelizeDefaultWriteMethodsRecord "destroy" =
        some [SequelizeWriteOperationType.DELETE]) ∧
      (assocLookup SequelizeDefaultWriteMethodsRecord "upsert" =
        some [SequelizeWriteOperationType.INSERT, SequelizeWriteOperationType.UPDATE]) ∧
      SequelizeDefaultWriteMethodsRecord.length = 15) ∧
    (∀ model method s, method ∉ SequelizeDefaultWriteMethodsRecord.map Prod.fst →
      processModelWriteMethod model method s = s) := by
  constructor
  · exact ⟨rfl, rfl, rfl, rfl, rfl, rfl, rfl, rfl, rfl, rfl, rfl, rfl, rfl, rfl,
      rfl, rfl⟩
  · intro model method s hmem
    unfold processModelWriteMethod
    by_cases hmix : isSequelizeTypescriptGeneratedWriteMethod method = true
    · rw [if_pos hmix]
    · rw [if_neg hmix]
      have hnone : assocLookup SequelizeDefaultWriteMethodsRecord method = none :=
        (assocLookup_none_iff _ _).mpr hmem
      rw [hnone]

/-- Witness for C3: the read-only finder `findAll` is outside the direct
vocabulary and contributes no usage effect. -/
theorem claim3_witness :
    "findAll" ∉ SequelizeDefaultWriteMethodsRecord.map Prod.fst ∧
      processModelWriteMethod demoUser "findAll" demoStoreUser = demoStoreUser :=
  ⟨by decide, claim3_classifier_table.2 demoUser "findAll" demoStoreUser (by decide)⟩

/-- Claim C6, counterexample to the claim as stated.  The claim says that
optional chaining and computed (bracket) member access are rejected
immediately and contribute no usage effect.  On the code, the callee
`User?.destroy` has three children (receiver, `?.` token, identifier) and
passes the structural check, and the callee `User[destroy]` with an
identifier index has its index at child position 2; both calls are
classified and set `User`'s delete flag, starting from the empty store. -/
theorem claim6_counterexample :
    processCallExpression demoRegistry nullChecker
        ⟨TSNode.propertyAccess (TSNode.ident "User") true (TSNode.ident "destroy"),
         []⟩ [] =
      [("User", ⟨"users", true, false, false, true⟩)] ∧
    processCallExpression demoRegistry nullChecker
        ⟨TSNode.elementAccess (TSNode.ident "User") (TSNode.ident "destroy"), []⟩
        [] =
      [("User", ⟨"users", true, false, false, true⟩)] :=
  ⟨rfl, rfl⟩

/-- Claim C6 (amended): the visitor rejects a call — leaving the store
unchanged for every registry and every type-checker oracle, i.e. before
any type resolution — exactly when the structural phase fails: the callee
has fewer than three children (in particular a plain identifier callee, a
plain function call), or its third child has empty text, is not an
identifier (in particular a computed access whose index expression is not
an identifier, such as a string-literal index), or its text is not a
write-method name.  Optional chaining (`a?.m`) and computed access with an
identifier index naming a write method pass the structural check and are
classified like plain property access (the counterexample). -/
theorem claim6_structural_rejection (reg : Registry) (checker : TSChecker)
    (node : CallExpressionNode) (s : Store)
    (h : (getChildren node.expression).length < 3 ∨
      (∀ t, (getChildren node.expression)[2]? = some t →
        getText t = "" ∨ isIdentifierNode t = false ∨
          isSequelizeModelWriteMethod (getText t) = false)) :
    processCallExpression reg checker node s = s := by
  unfold processCallExpression
  rcases hft : getFirstToken? node.expression with _ | ft
  · rfl
  · dsimp only
    unfold processCallWithFirstToken
    by_cases hlen : (getChildren node.expression).length < 3
    · rw [if_pos hlen]
    · rw [if_neg hlen]
      rcases h with h | h
      · exact absurd h hlen
      · rcases h2 : (getChildren node.expression)[2]? with _ | t
        · rfl
        · dsimp only
          by_cases c1 : getText t = ""
          · rw [if_pos c1]
          · rw [if_neg c1]
            by_cases c2 : isIdentifierNode t = false
            · rw [if_pos c2]
            · rw [if_neg c2]
              have c3 : isSequelizeModelWriteMethod (getText t) = false := by
                rcases h t h2 with h3 | h3 | h3
                · exact absurd h3 c1
                · exact absurd h3 c2
                · exact h3
              rw [if_pos c3]

/-- Witness for C6 at a plain function call `f()`: the identifier callee
has no children and is rejected. -/
theorem claim6_witness :
    ((getChildren (TSNode.ident "f")).length < 3 ∨
      (∀ t, (getChildren (TSNode.ident "f"))[2]? = some t →
        getText t = "" ∨ isIdentifierNode t = false ∨
          isSequelizeModelWriteMethod (getText t) = false)) ∧
    processCallExpression demoRegistry nullChecker ⟨TSNode.ident "f", []⟩
      demoStoreUser = demoStoreUser :=
  ⟨Or.inl (by decide),
    claim6_structural_rejection demoRegistry nullChecker ⟨TSNode.ident "f", []⟩
      demoStoreUser (Or.inl (by decide))⟩

/-- Claim C8: entity resolution succeeds through static type information.
For a call `entity.destroy()` whose receiver identifier text matches no
registered entity but whose static type's symbol is named like registered
entity `E`, the call sets `E`'s record's delete flag to true. -/
theorem claim8_type_resolution {reg : Registry} {checker : TSChecker} {v : String}
    {args : List TSNode} {sym : TSSymbol} {em : SeqModel}
    (hv : assocLookup reg v = none)
    (hty : checker (TSNode.ident v) = ⟨some sym⟩)
    (hsym : assocLookup reg sym.symName = some em) (s : Store) :
    ∃ r, assocLookup (processCallExpression reg checker
        ⟨TSNode.propertyAccess (TSNode.ident v) false (TSNode.ident "destroy"),
         args⟩ s) em.name = some r ∧ r.isDelete = true := by
  have hfm : findModelFromNode reg checker (TSNode.ident v) = some em := by
    unfold findModelFromNode
    dsimp only [getText]
    rw [hv]
    dsimp only
    rw [if_neg (by simp [isIdentifierNode])]
    rw [hty]
    dsimp only
    simp only [Option.map_some', Option.getD_some]
    rw [hsym]
  unfold processCallExpression
  dsimp only
  rw [show getFirstToken? (TSNode.propertyAccess (TSNode.ident v) false
      (TSNode.ident "destroy")) = some (TSNode.ident v) from rfl]
  unfold processCallWithFirstToken
  dsimp only
  rw [if_neg (by rw [getChildren_propertyAccess_length]; omega)]
  rw [getChildren_propertyAccess_third]
  dsimp only [getText]
  rw [if_neg (by decide)]
  rw [if_neg (by simp [isIdentifierNode])]
  rw [if_neg (by decide)]
  unfold processResolvedCall
  rw [hfm]
  dsimp only
  rw [show processModelTypescriptMixins reg em "destroy" args
        (processModelWriteMethod em "destroy" s) =
      processModelWriteMethod em "destroy" s by
    unfold processModelTypescriptMixins
    rw [if_pos (by decide)]]
  unfold processModelWriteMethod
  rw [if_neg (by decide)]
  rw [show assocLookup SequelizeDefaultWriteMethodsRecord "destroy" =
      some [SequelizeWriteOperationType.DELETE] from rfl]
  dsimp only [List.foldl]
  obtain ⟨r0, hr0⟩ := Option.isSome_iff_exists.mp
    (assocLookup_getOrCreate_self em.name em.table s)
  refine ⟨{ r0 with isDelete := true }, ?_, rfl⟩
  rw [setDeleteFlag_eq_mapUpdate, assocLookup_mapUpdate, if_pos rfl, hr0]
  rfl

/-- Witness for C8: `user.destroy()` where `user` is typed as an instance
of `User`. -/
theorem claim8_witness :
    assocLookup demoRegistry "user" = none ∧
    demoChecker (TSNode.ident "user") = ⟨some ⟨"User", none⟩⟩ ∧
    assocLookup demoRegistry (TSSymbol.mk "User" none).symName = some demoUser ∧
    ∃ r, assocLookup (processCallExpression demoRegistry demoChecker
        ⟨TSNode.propertyAccess (TSNode.ident "user") false (TSNode.ident "destroy"),
         []⟩ []) demoUser.name = some r ∧ r.isDelete = true :=
  ⟨rfl, rfl, rfl,
    @claim8_type_resolution demoRegistry demoChecker "user" [] ⟨"User", none⟩
      demoUser rfl rfl rfl []⟩

/-- Claim C5, evaluation at the failing input: after traversal, the
completion pass hits the `BelongsToMany` association of `A` whose join
model `J` is not registered; `getThroughModelOperations` logs and returns
`undefined` as its documentation says, but `addHiddenManyToManyModels`
dereferences that `undefined` unconditionally
(`throughModelOperations.isInsert = true`), so the run throws a
`TypeError` (modelled as `none`) instead of absorbing the diagnostic. -/
theorem claim5_completion_pass_throws :
    addHiddenManyToManyModels brokenRegistry brokenStore = none := rfl

theorem assocLookup_condSetInsert {s : Store} {n : String}
    {r : SequelizeParserModelOperations} (h : assocLookup s n = some r) (c : Bool) :
    assocLookup (if c = true then setInsertFlag n s else s) n =
      some { r with isInsert := r.isInsert || c } := by
  rcases c
  · rw [if_neg (by decide)]
    simp only [Bool.or_false]
    exact h
  · rw [if_pos rfl, setInsertFlag_eq_mapUpdate, assocLookup_mapUpdate, if_pos rfl, h]
    simp

theorem assocLookup_condSetUpdate {s : Store} {n : String}
    {r : SequelizeParserModelOperations} (h : assocLookup s n = some r) (c : Bool) :
    assocLookup (if c = true then setUpdateFlag n s else s) n =
      some { r with isUpdate := r.isUpdate || c } := by
  rcases c
  · rw [if_neg (by decide)]
    simp only [Bool.or_false]
    exact h
  · rw [if_pos rfl, setUpdateFlag_eq_mapUpdate, assocLookup_mapUpdate, if_pos rfl, h]
    simp

theorem assocLookup_condSetDelete {s : Store} {n : String}
    {r : SequelizeParserModelOperations} (h : assocLookup s n = some r) (c : Bool) :
    assocLookup (if c = true then setDeleteFlag n s else s) n =
      some { r with isDelete := r.isDelete || c } := by
  rcases c
  · rw [if_neg (by decide)]
    simp only [Bool.or_false]
    exact h
  · rw [if_pos rfl, setDeleteFlag_eq_mapUpdate, assocLookup_mapUpdate, if_pos rfl, h]
    simp

/-- Claim C2: the completion pass's join-record creation.  For a
many-to-many association of a Store entity whose join model resolves to a
registered model: if the join has no record yet and the target does, the
pass's per-association step creates the join record with `select = true`
and insert/update/delete equal to the OR of the join's prior flags (absent,
hence all false) with the target's current flags — i.e. exactly the
target's flags. -/
theorem claim2_completer_creates_join {reg : Registry} {a : SeqAssociation}
    {s : Store} {targetOps : SequelizeParserModelOperations} {thr : SeqModel}
    (hbtm : a.isBelongsToMany = true)
    (ht : assocLookup s a.target.name = some targetOps)
    (hthr : resolveThroughModel reg a = some thr)
    (hnew : assocLookup s thr.name = none) :
    ∃ s', addHiddenAssociationStep reg a s = some s' ∧
      assocLookup s' thr.name =
        some ⟨thr.table, true, targetOps.isInsert, targetOps.isUpdate,
          targetOps.isDelete⟩ := by
  unfold addHiddenAssociationStep
  rw [if_neg (by simp [hbtm]), ht]
  dsimp only
  unfold addHiddenThroughStep
  rw [getThroughModelOperations_eq, hthr]
  dsimp only
  refine ⟨_, rfl, ?_⟩
  have hbase : assocLookup (getOrCreateModelOperations thr.name thr.table s)
      thr.name = some (freshRecord thr.table) := by
    rw [assocLookup_getOrCreate, hnew]
    dsimp only
    rw [if_pos ⟨rfl, rfl⟩]
  have h1 := assocLookup_condSetInsert hbase targetOps.isInsert
  have h2 := assocLookup_condSetUpdate h1 targetOps.isUpdate
  have h3 := assocLookup_condSetDelete h2 targetOps.isDelete
  rw [h3]
  simp [freshRecord]

/-- Witness for C2 at the `User`/`Role`/`UserRole` schema: `Role` already
has `insert = true` from unrelated direct usage, `UserRole` has no record;
the step creates `UserRole` with `select` and `insert`. -/
theorem claim2_witness :
    demoRolesAssoc.isBelongsToMany = true ∧
    assocLookup [("User", freshRecord "users"),
      ("Role", ⟨"roles", true, true, false, false⟩)] demoRolesAssoc.target.name =
      some ⟨"roles", true, true, false, false⟩ ∧
    resolveThroughModel demoRegistry demoRolesAssoc = some demoUserRole ∧
    assocLookup [("User", freshRecord "users"),
      ("Role", ⟨"roles", true, true, false, false⟩)] demoUserRole.name = none ∧
    ∃ s', addHiddenAssociationStep demoRegistry demoRolesAssoc
        [("User", freshRecord "users"),
         ("Role", ⟨"roles", true, true, false, false⟩)] = some s' ∧
      assocLookup s' demoUserRole.name =
        some ⟨demoUserRole.table, true, true, false, false⟩ :=
  ⟨rfl, rfl, rfl, rfl,
    @claim2_completer_creates_join demoRegistry demoRolesAssoc
      [("User", freshRecord "users"), ("Role", ⟨"roles", true, true, false, false⟩)]
      ⟨"roles", true, true, false, false⟩ demoUserRole rfl rfl rfl rfl⟩

/-- Claim C7, counterexample to the claim as stated: over `chainRegistry`,
the first completion pass creates the join record `J` (snapshot of the
keys: `J` itself is not iterated); a second pass iterates `J` too, whose
own many-to-many association creates `K` — the store changes, so the pass
is not idempotent. -/
theorem claim7_counterexample :
    (addHiddenManyToManyModels chainRegistry chainStore).bind
        (addHiddenManyToManyModels chainRegistry) ≠
      addHiddenManyToManyModels chainRegistry chainStore := by
  decide

theorem resolveThroughModel_btm {reg : Registry} {a : SeqAssociation} {j : SeqModel}
    (h : resolveThroughModel reg a = some j) : a.isBelongsToMany = true := by
  rcases hb : a.isBelongsToMany
  · unfold resolveThroughModel at h
    rw [if_pos hb] at h
    cases h
  · rfl

theorem resolveThroughModel_lookup {reg : Registry} {a : SeqAssociation} {j : SeqModel}
    (h : resolveThroughModel reg a = some j) : ∃ nm, assocLookup reg nm = some j := by
  unfold resolveThroughModel at h
  split_ifs at h
  rcases hth : a.through with _ | thr
  · rw [hth] at h
    cases h
  · rw [hth] at h
    dsimp only at h
    split_ifs at h
    rcases hn : getSequelizeModelNameFromThroughModel thr with _ | nm
    · rw [hn] at h
      cases h
    · rw [hn] at h
      dsimp only at h
      split_ifs at h
      exact ⟨nm, h⟩

theorem coherent_lookup_name {reg : Registry} (hco : RegistryCoherent reg)
    {x : String} {m : SeqModel} (h : assocLookup reg x = some m) : m.name = x :=
  hco (x, m) (assocLookup_mem h)

theorem keys_setInsertFlag (m : String) (s : Store) :
    (setInsertFlag m s).map Prod.fst = s.map Prod.fst := by
  rw [setInsertFlag_eq_mapUpdate]
  exact keys_mapUpdate _ m s

theorem keys_setUpdateFlag (m : String) (s : Store) :
    (setUpdateFlag m s).map Prod.fst = s.map Prod.fst := by
  rw [setUpdateFlag_eq_mapUpdate]
  exact keys_mapUpdate _ m s

theorem keys_setDeleteFlag (m : String) (s : Store) :
    (setDeleteFlag m s).map Prod.fst = s.map Prod.fst := by
  rw [setDeleteFlag_eq_mapUpdate]
  exact keys_mapUpdate _ m s

theorem keys_condSetInsert (c : Bool) (m : String) (s : Store) :
    ((if c = true then setInsertFlag m s else s).map Prod.fst) = s.map Prod.fst := by
  rcases c
  · rfl
  · rw [if_pos rfl]
    exact keys_setInsertFlag m s

theorem keys_condSetUpdate (c : Bool) (m : String) (s : Store) :
    ((if c = true then setUpdateFlag m s else s).map Prod.fst) = s.map Prod.fst := by
  rcases c
  · rfl
  · rw [if_pos rfl]
    exact keys_setUpdateFlag m s

theorem keys_condSetDelete (c : Bool) (m : String) (s : Store) :
    ((if c = true then setDeleteFlag m s else s).map Prod.fst) = s.map Prod.fst := by
  rcases c
  · rfl
  · rw [if_pos rfl]
    exact keys_setDeleteFlag m s

theorem nodupKeys_getOrCreate (m t : String) {s : Store}
    (h : (s.map Prod.fst).Nodup) :
    ((getOrCreateModelOperations m t s).map Prod.fst).Nodup := by
  rcases hm : assocLookup s m with _ | r
  · rw [getOrCreate_of_none hm, List.map_append]
    have hnotin : m ∉ s.map Prod.fst := (assocLookup_none_iff s m).mp hm
    simp [List.nodup_append, h, hnotin]
  · rw [getOrCreate_of_isSome (by simp [hm])]
    exact h

theorem assocLookup_condSetInsert_other {m n : String} (hne : m ≠ n) (c : Bool)
    (s : Store) :
    assocLookup (if c = true then setInsertFlag m s else s) n = assocLookup s n := by
  rcases c
  · rfl
  · rw [if_pos rfl]
    exact assocLookup_setInsertFlag_other hne s

theorem assocLookup_condSetUpdate_other {m n : String} (hne : m ≠ n) (c : Bool)
    (s : Store) :
    assocLookup (if c = true then setUpdateFlag m s else s) n = assocLookup s n := by
  rcases c
  · rfl
  · rw [if_pos rfl]
    exact assocLookup_setUpdateFlag_other hne s

theorem assocLookup_condSetDelete_other {m n : String} (hne : m ≠ n) (c : Bool)
    (s : Store) :
    assocLookup (if c = true then setDeleteFlag m s else s) n = assocLookup s n := by
  rcases c
  · rfl
  · rw [if_pos rfl]
    exact assocLookup_setDeleteFlag_other hne s

theorem addHiddenAssociationStep_agree {reg : Registry} {a : SeqAssociation}
    {st st' : Store} (h : addHiddenAssociationStep reg a st = some st') {n : String}
    (hn : ∀ j, resolveThroughModel reg a = some j → j.name ≠ n) :
    assocLookup st' n = assocLookup st n := by
  unfold addHiddenAssociationStep at h
  split_ifs at h
  · cases h
    rfl
  · rcases ht : assocLookup st a.target.name with _ | tops
    · rw [ht] at h
      cases h
      rfl
    · rw [ht] at h
      unfold addHiddenThroughStep at h
      rw [getThroughModelOperations_eq] at h
      rcases hres : resolveThroughModel reg a with _ | j
      · rw [hres] at h
        dsimp only at h
        split_ifs at h
        obtain rfl := Option.some.inj h
        rfl
      · rw [hres] at h
        dsimp only at h
        obtain rfl := Option.some.inj h
        have hne : j.name ≠ n := hn j hres
        rw [assocLookup_condSetDelete_other hne, assocLookup_condSetUpdate_other hne,
          assocLookup_condSetInsert_other hne, assocLookup_getOrCreate_other hne]

theorem addHiddenAssociationStep_nores {reg : Registry} {a : SeqAssociation}
    {st st' : Store} {tops : SequelizeParserModelOperations}
    (h : addHiddenAssociationStep reg a st = some st')
    (hbtm : a.isBelongsToMany = true)
    (ht : assocLookup st a.target.name = some tops)
    (hres : resolveThroughModel reg a = none) :
    tops.isInsert = false ∧ tops.isUpdate = false ∧ tops.isDelete = false := by
  unfold addHiddenAssociationStep at h
  rw [if_neg (by simp [hbtm]), ht] at h
  dsimp only at h
  unfold addHiddenThroughStep at h
  rw [getThroughModelOperations_eq, hres] at h
  dsimp only at h
  by_cases hf : (tops.isInsert || tops.isUpdate || tops.isDelete) = true
  · rw [if_pos hf] at h
    cases h
  · rw [if_neg hf] at h
    simp only [Bool.or_eq_true, not_or, Bool.not_eq_true] at hf
    exact ⟨hf.1.1, hf.1.2, hf.2⟩

theorem addHiddenAssociationStep_post {reg : Registry} {a : SeqAssociation}
    {st st' : Store} {j : SeqModel} {tops : SequelizeParserModelOperations}
    (h : addHiddenAssociationStep reg a st = some st')
    (hj : resolveThroughModel reg a = some j)
    (ht : assocLookup st a.target.name = some tops) :
    ∃ jr, assocLookup st' j.name = some jr ∧
      (tops.isInsert = true → jr.isInsert = true) ∧
      (tops.isUpdate = true → jr.isUpdate = true) ∧
      (tops.isDelete = true → jr.isDelete = true) := by
  have hbtm := resolveThroughModel_btm hj
  unfold addHiddenAssociationStep at h
  rw [if_neg (by simp [hbtm]), ht] at h
  dsimp only at h
  unfold addHiddenThroughStep at h
  rw [getThroughModelOperations_eq, hj] at h
  dsimp only at h
  obtain rfl := Option.some.inj h
  obtain ⟨r0, hr0⟩ := Option.isSome_iff_exists.mp
    (assocLookup_getOrCreate_self j.name j.table st)
  have h1 := assocLookup_condSetInsert hr0 tops.isInsert
  have h2 := assocLookup_condSetUpdate h1 tops.isUpdate
  have h3 := assocLookup_condSetDelete h2 tops.isDelete
  refine ⟨_, h3, ?_, ?_, ?_⟩ <;> intro hx <;> simp [hx]

theorem nodupKeys_addHiddenAssociationStep {reg : Registry} {a : SeqAssociation}
    {st st' : Store} (h : addHiddenAssociationStep reg a st = some st')
    (hnd : (st.map Prod.fst).Nodup) : (st'.map Prod.fst).Nodup := by
  unfold addHiddenAssociationStep at h
  split_ifs at h
  · cases h
    exact hnd
  · rcases ht : assocLookup st a.target.name with _ | tops
    · rw [ht] at h
      cases h
      exact hnd
    · rw [ht] at h
      unfold addHiddenThroughStep at h
      rw [getThroughModelOperations_eq] at h
      rcases hres : resolveThroughModel reg a with _ | j
      · rw [hres] at h
        dsimp only at h
        split_ifs at h
        obtain rfl := Option.some.inj h
        exact hnd
      · rw [hres] at h
        dsimp only at h
        obtain rfl := Option.some.inj h
        rw [keys_condSetDelete, keys_condSetUpdate, keys_condSetInsert]
        exact nodupKeys_getOrCreate j.name j.table hnd

theorem assocFold_agree {reg : Registry} {n : String}
    (l : List (String × SeqAssociation)) :
    ∀ {st st' : Store},
      l.foldlM (fun acc p => addHiddenAssociationStep reg p.2 acc) st = some st' →
      (∀ p ∈ l, ∀ j, resolveThroughModel reg p.2 = some j → j.name ≠ n) →
      assocLookup st' n = assocLookup st n := by
  induction l with
  | nil =>
    intro st st' h _
    cases h
    rfl
  | cons p rest ih =>
    intro st st' h hall
    rw [List.foldlM_cons] at h
    rcases hstep : addHiddenAssociationStep reg p.2 st with _ | st1
    · rw [hstep] at h
      cases h
    · rw [hstep] at h
      rw [ih h (fun q hq => hall q (List.mem_cons_of_mem _ hq)),
        addHiddenAssociationStep_agree hstep (hall p (List.mem_cons_self _ _))]

theorem assocFold_nodup {reg : Registry} (l : List (String × SeqAssociation)) :
    ∀ {st st' : Store},
      l.foldlM (fun acc p => addHiddenAssociationStep reg p.2 acc) st = some st' →
      (st.map Prod.fst).Nodup → (st'.map Prod.fst).Nodup := by
  induction l with
  | nil =>
    intro st st' h hnd
    cases h
    exact hnd
  | cons p rest ih =>
    intro st st' h hnd
    rw [List.foldlM_cons] at h
    rcases hstep : addHiddenAssociationStep reg p.2 st with _ | st1
    · rw [hstep] at h
      cases h
    · rw [hstep] at h
      exact ih h (nodupKeys_addHiddenAssociationStep hstep hnd)

theorem assocFold_id_noBtm {reg : Registry} {l : List (String × SeqAssociation)}
    (hall : ∀ q ∈ l, q.2.isBelongsToMany = false) (s : Store) :
    l.foldlM (fun acc p => addHiddenAssociationStep reg p.2 acc) s = some s := by
  induction l with
  | nil => rfl
  | cons p rest ih =>
    rw [List.foldlM_cons]
    have hstep : addHiddenAssociationStep reg p.2 s = some s := by
      unfold addHiddenAssociationStep
      rw [if_pos (hall p (List.mem_cons_self _ _))]
    rw [hstep]
    exact ih (fun q hq => hall q (List.mem_cons_of_mem _ hq))

theorem assocFold_id_of_each {reg : Registry} {l : List (String × SeqAssociation)}
    {s : Store}
    (hall : ∀ q ∈ l, addHiddenAssociationStep reg q.2 s = some s) :
    l.foldlM (fun acc p => addHiddenAssociationStep reg p.2 acc) s = some s := by
  induction l with
  | nil => rfl
  | cons p rest ih =>
    rw [List.foldlM_cons, hall p (List.mem_cons_self _ _)]
    exact ih (fun q hq => hall q (List.mem_cons_of_mem _ hq))

theorem addHiddenModelStep_agree {reg : Registry} {st st' : Store} {k : String}
    (h : addHiddenModelStep reg st k = some st') {n : String}
    (hn : NotJoinName reg n) : assocLookup st' n = assocLookup st n := by
  unfold addHiddenModelStep at h
  rcases hm : assocLookup reg k with _ | model
  · rw [hm] at h
    cases h
  · rw [hm] at h
    dsimp only at h
    have hmem := assocLookup_mem hm
    exact assocFold_agree model.associations h
      (fun q hq j hj => hn (k, model) hmem q hq j hj)

theorem nodupKeys_addHiddenModelStep {reg : Registry} {st st' : Store} {k : String}
    (h : addHiddenModelStep reg st k = some st')
    (hnd : (st.map Prod.fst).Nodup) : (st'.map Prod.fst).Nodup := by
  unfold addHiddenModelStep at h
  rcases hm : assocLookup reg k with _ | model
  · rw [hm] at h
    cases h
  · rw [hm] at h
    dsimp only at h
    exact assocFold_nodup model.associations h hnd

theorem invStep_keysFold {reg : Registry} (ks : List String) :
    ∀ {st st' : Store}, ks.foldlM (addHiddenModelStep reg) st = some st' →
      InvStep st st' := by
  induction ks with
  | nil =>
    intro st st' h
    cases h
    exact invStep_refl _
  | cons k rest ih =>
    intro st st' h
    rw [List.foldlM_cons] at h
    rcases hstep : addHiddenModelStep reg st k with _ | st1
    · rw [hstep] at h
      cases h
    · rw [hstep] at h
      exact invStep_trans (invStep_addHiddenModelStep hstep) (ih h)

theorem keysFold_agree {reg : Registry} {n : String} (hn : NotJoinName reg n)
    (ks : List String) :
    ∀ {st st' : Store}, ks.foldlM (addHiddenModelStep reg) st = some st' →
      assocLookup st' n = assocLookup st n := by
  induction ks with
  | nil =>
    intro st st' h
    cases h
    rfl
  | cons k rest ih =>
    intro st st' h
    rw [List.foldlM_cons] at h
    rcases hstep : addHiddenModelStep reg st k with _ | st1
    · rw [hstep] at h
      cases h
    · rw [hstep] at h
      rw [ih h, addHiddenModelStep_agree hstep hn]

theorem keysFold_nodup {reg : Registry} (ks : List String) :
    ∀ {st st' : Store}, ks.foldlM (addHiddenModelStep reg) st = some st' →
      (st.map Prod.fst).Nodup → (st'.map Prod.fst).Nodup := by
  induction ks with
  | nil =>
    intro st st' h hnd
    cases h
    exact hnd
  | cons k rest ih =>
    intro st st' h hnd
    rw [List.foldlM_cons] at h
    rcases hstep : addHiddenModelStep reg st k with _ | st1
    · rw [hstep] at h
      cases h
    · rw [hstep] at h
      exact ih h (nodupKeys_addHiddenModelStep hstep hnd)

theorem keysFold_registered {reg : Registry} (ks : List String) :
    ∀ {st st' : Store}, ks.foldlM (addHiddenModelStep reg) st = some st' →
      ∀ k ∈ ks, (assocLookup reg k).isSome = true := by
  induction ks with
  | nil =>
    intro st st' _ k hk
    cases hk
  | cons k0 rest ih =>
    intro st st' h k hk
    rw [List.foldlM_cons] at h
    rcases hstep : addHiddenModelStep reg st k0 with _ | st1
    · rw [hstep] at h
      cases h
    · rw [hstep] at h
      rcases List.mem_cons.mp hk with hk | hk
      · subst hk
        unfold addHiddenModelStep at hstep
        rcases hm : assocLookup reg k with _ | model
        · rw [hm] at hstep
          cases hstep
        · simp [hm]
      · exact ih h k hk

theorem keysFold_id_of_each {reg : Registry} {s : Store} {ks : List String}
    (hall : ∀ k ∈ ks, addHiddenModelStep reg s k = some s) :
    ks.foldlM (addHiddenModelStep reg) s = some s := by
  induction ks with
  | nil => rfl
  | cons k rest ih =>
    rw [List.foldlM_cons, hall k (List.mem_cons_self _ _)]
    exact ih (fun k' hk' => hall k' (List.mem_cons_of_mem _ hk'))

theorem setInsertFlag_id_of_true {s : Store} {n : String}
    {r : SequelizeParserModelOperations} (hnd : (s.map Prod.fst).Nodup)
    (h : assocLookup s n = some r) (hflag : r.isInsert = true) :
    setInsertFlag n s = s := by
  rw [setInsertFlag_eq_mapUpdate]
  apply mapUpdate_id_of_flag
  intro p hp hpn
  obtain ⟨k, v⟩ := p
  dsimp only at hpn ⊢
  subst hpn
  have hv : assocLookup s k = some v := assocLookup_eq_of_mem_nodup hnd hp
  rw [h] at hv
  obtain rfl := Option.some.inj hv
  rcases r with ⟨tb, se, ii, uu, dd⟩
  simp only at hflag
  subst hflag
  rfl

theorem setUpdateFlag_id_of_true {s : Store} {n : String}
    {r : SequelizeParserModelOperations} (hnd : (s.map Prod.fst).Nodup)
    (h : assocLookup s n = some r) (hflag : r.isUpdate = true) :
    setUpdateFlag n s = s := by
  rw [setUpdateFlag_eq_mapUpdate]
  apply mapUpdate_id_of_flag
  intro p hp hpn
  obtain ⟨k, v⟩ := p
  dsimp only at hpn ⊢
  subst hpn
  have hv : assocLookup s k = some v := assocLookup_eq_of_mem_nodup hnd hp
  rw [h] at hv
  obtain rfl := Option.some.inj hv
  rcases r with ⟨tb, se, ii, uu, dd⟩
  simp only at hflag
  subst hflag
  rfl

theorem setDeleteFlag_id_of_true {s : Store} {n : String}
    {r : SequelizeParserModelOperations} (hnd : (s.map Prod.fst).Nodup)
    (h : assocLookup s n = some r) (hflag : r.isDelete = true) :
    setDeleteFlag n s = s := by
  rw [setDeleteFlag_eq_mapUpdate]
  apply mapUpdate_id_of_flag
  intro p hp hpn
  obtain ⟨k, v⟩ := p
  dsimp only at hpn ⊢
  subst hpn
  have hv : assocLookup s k = some v := assocLookup_eq_of_mem_nodup hnd hp
  rw [h] at hv
  obtain rfl := Option.some.inj hv
  rcases r with ⟨tb, se, ii, uu, dd⟩
  simp only at hflag
  subst hflag
  rfl

theorem target_not_join {reg : Registry} (hsep : JoinSeparated reg)
    {pk : String} {model : SeqModel} (hmem : (pk, model) ∈ reg)
    {q : String × SeqAssociation} (hq : q ∈ model.associations)
    (hbtm : q.2.isBelongsToMany = true) :
    NotJoinName reg q.2.target.name := by
  intro p' hp' q' hq' j' hj'
  have hbtm' := resolveThroughModel_btm hj'
  obtain ⟨_, htargets⟩ := hsep p' hp' q' hq' hbtm' j' hj'
  exact Ne.symm (htargets (pk, model) hmem q hq hbtm)

theorem assocFold_main {reg : Registry} (l : List (String × SeqAssociation)) :
    ∀ {st st' : Store},
      l.foldlM (fun acc p => addHiddenAssociationStep reg p.2 acc) st = some st' →
      ∀ q ∈ l, q.2.isBelongsToMany = true →
        (∀ p ∈ l, ∀ j', resolveThroughModel reg p.2 = some j' →
          j'.name ≠ q.2.target.name) →
        ∀ tops, assocLookup st q.2.target.name = some tops →
          ((resolveThroughModel reg q.2 = none →
            tops.isInsert = false ∧ tops.isUpdate = false ∧ tops.isDelete = false) ∧
           (∀ j, resolveThroughModel reg q.2 = some j →
            ∃ jr, assocLookup st' j.name = some jr ∧
              (tops.isInsert = true → jr.isInsert = true) ∧
              (tops.isUpdate = true → jr.isUpdate = true) ∧
              (tops.isDelete = true → jr.isDelete = true))) := by
  induction l with
  | nil =>
    intro st st' _ q hq
    cases hq
  | cons p rest ih =>
    intro st st' h q hq hbtm hnt tops htops
    rw [List.foldlM_cons] at h
    rcases hstep : addHiddenAssociationStep reg p.2 st with _ | st1
    · rw [hstep] at h
      cases h
    · rw [hstep] at h
      rcases List.mem_cons.mp hq with hq' | hq'
      · subst hq'
        constructor
        · intro hres
          exact addHiddenAssociationStep_nores hstep hbtm htops hres
        · intro j hj
          obtain ⟨jr0, hjr0, hf⟩ := addHiddenAssociationStep_post hstep hj htops
          have hle : StoreLE st1 st' := (invStep_foldlM_assoc rest h).2
          obtain ⟨jr, hjr, hle'⟩ := hle j.name jr0 hjr0
          exact ⟨jr, hjr, fun hx => hle'.2.1 (hf.1 hx),
            fun hx => hle'.2.2.1 (hf.2.1 hx), fun hx => hle'.2.2.2 (hf.2.2 hx)⟩
      · have hag : assocLookup st1 q.2.target.name = assocLookup st q.2.target.name :=
          addHiddenAssociationStep_agree hstep
            (fun j' hj' => hnt p (List.mem_cons_self _ _) j' hj')
        exact ih h q hq' hbtm (fun p' hp' => hnt p' (List.mem_cons_of_mem _ hp'))
          tops (by rw [hag]; exact htops)

theorem keysFold_main {reg : Registry} (hsep : JoinSeparated reg) {s : Store}
    (ks : List String) :
    ∀ {st st' : Store},
      (∀ n, NotJoinName reg n → assocLookup st n = assocLookup s n) →
      ks.foldlM (addHiddenModelStep reg) st = some st' →
      ∀ k ∈ ks, ∀ model, assocLookup reg k = some model →
        ∀ q ∈ model.associations, q.2.isBelongsToMany = true →
          ∀ tops, assocLookup s q.2.target.name = some tops →
            ((resolveThroughModel reg q.2 = none →
              tops.isInsert = false ∧ tops.isUpdate = false ∧ tops.isDelete = false) ∧
             (∀ j, resolveThroughModel reg q.2 = some j →
              ∃ jr, assocLookup st' j.name = some jr ∧
                (tops.isInsert = true → jr.isInsert = true) ∧
                (tops.isUpdate = true → jr.isUpdate = true) ∧
                (tops.isDelete = true → jr.isDelete = true))) := by
  induction ks with
  | nil =>
    intro st st' _ _ k hk
    cases hk
  | cons k0 rest ih =>
    intro st st' hag h k hk model hmodel q hq hbtm tops htops
    rw [List.foldlM_cons] at h
    rcases hstep : addHiddenModelStep reg st k0 with _ | st1
    · rw [hstep] at h
      cases h
    · rw [hstep] at h
      have hag1 : ∀ n, NotJoinName reg n → assocLookup st1 n = assocLookup s n := by
        intro n hn
        rw [addHiddenModelStep_agree hstep hn, hag n hn]
      rcases List.mem_cons.mp hk with hk' | hk'
      · subst hk'
        have hmem := assocLookup_mem hmodel
        have hntj : NotJoinName reg q.2.target.name :=
          target_not_join hsep hmem hq hbtm
        have htst : assocLookup st q.2.target.name = some tops := by
          rw [hag _ hntj]
          exact htops
        unfold addHiddenModelStep at hstep
        rw [hmodel] at hstep
        dsimp only at hstep
        have hinner := assocFold_main model.associations hstep q hq hbtm
          (fun p' hp' j' hj' => hntj (k, model) hmem p' hp' j' hj') tops htst
        refine ⟨hinner.1, ?_⟩
        intro j hj
        obtain ⟨jr0, hjr0, hf⟩ := hinner.2 j hj
        have hle : StoreLE st1 st' := (invStep_keysFold rest h).2
        obtain ⟨jr, hjr, hle'⟩ := hle j.name jr0 hjr0
        exact ⟨jr, hjr, fun hx => hle'.2.1 (hf.1 hx),
          fun hx => hle'.2.2.1 (hf.2.1 hx), fun hx => hle'.2.2.2 (hf.2.2 hx)⟩
      · exact ih hag1 h k hk' model hmodel q hq hbtm tops htops

/-- Claim C7 (amended): the completion pass is idempotent over every
already-completed store, provided the schema keeps join entities separate
— the registry is coherent (each binding's model is named by its key, as
`sequelize.models` guarantees), the store's keys are duplicate-free, and
no join model resolvable from the registry has a many-to-many association
of its own or appears as the target of one.  The counterexample shows the
separation proviso is necessary: a join model with its own many-to-many
association is iterated only by the second run, which then grows the
store. -/
theorem claim7_completion_pass_idempotent {reg : Registry} {s s₁ : Store}
    (hco : RegistryCoherent reg) (hnd : (s.map Prod.fst).Nodup)
    (hsep : JoinSeparated reg)
    (hrun : addHiddenManyToManyModels reg s = some s₁) :
    addHiddenManyToManyModels reg s₁ = some s₁ := by
  unfold addHiddenManyToManyModels at hrun ⊢
  have hnd1 : (s₁.map Prod.fst).Nodup := keysFold_nodup _ hrun hnd
  have hag : ∀ n, NotJoinName reg n → assocLookup s₁ n = assocLookup s n :=
    fun n hn => keysFold_agree hn _ hrun
  apply keysFold_id_of_each
  intro k hk
  by_cases hks : k ∈ s.map Prod.fst
  · obtain ⟨model, hmodel⟩ := Option.isSome_iff_exists.mp
      (keysFold_registered _ hrun k hks)
    unfold addHiddenModelStep
    rw [hmodel]
    dsimp only
    apply assocFold_id_of_each
    intro q hq
    by_cases hbtm : q.2.isBelongsToMany = true
    · have hmem := assocLookup_mem hmodel
      have hntj : NotJoinName reg q.2.target.name := target_not_join hsep hmem hq hbtm
      unfold addHiddenAssociationStep
      rw [if_neg (by simp [hbtm])]
      rcases htops1 : assocLookup s₁ q.2.target.name with _ | tops
      · rfl
      · have htops : assocLookup s q.2.target.name = some tops := by
          rw [← hag _ hntj]
          exact htops1
        have hmain := keysFold_main hsep (s.map Prod.fst) (fun n _ => rfl) hrun
          k hks model hmodel q hq hbtm tops htops
        unfold addHiddenThroughStep
        rw [getThroughModelOperations_eq]
        rcases hres : resolveThroughModel reg q.2 with _ | j
        · dsimp only
          obtain ⟨hI, hU, hD⟩ := hmain.1 hres
          rw [if_neg (by simp [hI, hU, hD])]
        · dsimp only
          obtain ⟨jr, hjr, hf⟩ := hmain.2 j hres
          rw [getOrCreate_of_isSome (by simp [hjr]) j.table]
          have e1 : (if tops.isInsert = true then setInsertFlag j.name s₁ else s₁) =
              s₁ := by
            rcases hti : tops.isInsert
            · rw [if_neg (by simp)]
            · rw [if_pos rfl]
              exact setInsertFlag_id_of_true hnd1 hjr (hf.1 hti)
          rw [e1]
          have e2 : (if tops.isUpdate = true then setUpdateFlag j.name s₁ else s₁) =
              s₁ := by
            rcases htu : tops.isUpdate
            · rw [if_neg (by simp)]
            · rw [if_pos rfl]
              exact setUpdateFlag_id_of_true hnd1 hjr (hf.2.1 htu)
          rw [e2]
          have e3 : (if tops.isDelete = true then setDeleteFlag j.name s₁ else s₁) =
              s₁ := by
            rcases htd : tops.isDelete
            · rw [if_neg (by simp)]
            · rw [if_pos rfl]
              exact setDeleteFlag_id_of_true hnd1 hjr (hf.2.2 htd)
          rw [e3]
    · unfold addHiddenAssociationStep
      rw [if_pos (by rcases hb : q.2.isBelongsToMany; rfl; exact absurd hb hbtm)]
  · have hnone : assocLookup s k = none := (assocLookup_none_iff s k).mpr hks
    have hsome1 : (assocLookup s₁ k).isSome = true := (assocLookup_isSome_iff s₁ k).mpr hk
    have hnotnj : ¬ NotJoinName reg k := by
      intro hn
      rw [hag k hn, hnone] at hsome1
      simp at hsome1
    unfold NotJoinName at hnotnj
    push_neg at hnotnj
    obtain ⟨p, hp, q, hq, j, hj, hjk⟩ := hnotnj
    have hbtmq := resolveThroughModel_btm hj
    obtain ⟨hnb, _⟩ := hsep p hp q hq hbtmq j hj
    obtain ⟨nm, hnm⟩ := resolveThroughModel_lookup hj
    have hname : j.name = nm := coherent_lookup_name hco hnm
    have hlk : assocLookup reg k = some j := by
      rw [← hjk, hname]
      exact hnm
    unfold addHiddenModelStep
    rw [hlk]
    dsimp only
    exact assocFold_id_noBtm hnb s₁

/-- Witness for C7 on the demo schema: one pass over `demoStoreUR` yields
`demoStoreURJ`; a second pass leaves it exactly unchanged. -/
theorem claim7_witness :
    RegistryCoherent demoRegistry ∧
    (demoStoreUR.map Prod.fst).Nodup ∧
    JoinSeparated demoRegistry ∧
    addHiddenManyToManyModels demoRegistry demoStoreUR = some demoStoreURJ ∧
    addHiddenManyToManyModels demoRegistry demoStoreURJ = some demoStoreURJ :=
  ⟨by unfold RegistryCoherent; decide, by decide,
    by unfold JoinSeparated NoBtmAssociations; decide, by decide,
    @claim7_completion_pass_idempotent demoRegistry demoStoreUR demoStoreURJ
      (by unfold RegistryCoherent; decide) (by decide)
      (by unfold JoinSeparated NoBtmAssociations; decide) (by decide)⟩

end SGG
